import Mathlib

/-!
# RootInfo: the per-directory snapshot engine of dfmplugin-workspace

A shallow embedding of `models/rootinfo.cpp`.  The object state of `RootInfo`
is an explicit record, member functions are pure functions on that record, and
every `emit` (and every call into an external singleton) is appended to a log
kept in the record.  Code that lives outside the file (Qt, dfm-base, the
watcher and the info factory) is taken as a parameter, see `Collaborators`.
-/

namespace dfmplugin_workspace

/-! ## Qt and dfm-base values -/

/-- A `QUrl`, reduced to the two components the snapshot engine compares.
Equality of the record is `QUrl::operator==`. -/
structure QUrl where
  scheme : String
  path : String
deriving DecidableEq, Repr

/-- The statement `url.setPath(url.path())`: it re-encodes the path of a
`QUrl`; the result compares equal to the original for the identities modelled
here, so it is the identity on the record. -/
def QUrl.setPathPath (u : QUrl) : QUrl := u

/-- A `dfmio::DEnumerator::SortRoleCompareFlag`. -/
inductive SortRoleCompareFlag where
  | kSortRoleCompareDefault
  | kSortRoleCompareFileName
  | kSortRoleCompareFileSize
  | kSortRoleCompareFileLastModified
  | kSortRoleCompareFileLastRead
deriving DecidableEq, Repr

/-- A `Qt::SortOrder`. -/
inductive SortOrder where
  | AscendingOrder
  | DescendingOrder
deriving DecidableEq, Repr

/-- The `Global::ItemRoles` that `initThreadOfFileData` distinguishes; every
other role is `kItemUnknowRole`. -/
inductive ItemRoles where
  | kItemFileDisplayNameRole
  | kItemFileSizeRole
  | kItemFileLastReadRole
  | kItemFileLastModifiedRole
  | kItemUnknowRole
deriving DecidableEq, Repr

/-- What `sortFileInfo` reads from a `dfmbase::FileInfo`. -/
structure FileInfo where
  url : QUrl
  size : Int
  isDir : Bool
  isHidden : Bool
  isSymLink : Bool
  isReadable : Bool
  isWritable : Bool
  isExecutable : Bool
  lastRead : Int
  lastModified : Int
  createTime : Int
deriving DecidableEq, Repr

/-- A `QSharedPointer<FileInfo>`; `none` is the null pointer. -/
abbrev FileInfoPointer := Option FileInfo

/-- The `SortFileInfo` record built by `sortFileInfo`. -/
structure SortFileInfo where
  url : QUrl
  size : Int
  isFile : Bool
  isDir : Bool
  isHide : Bool
  isSymlink : Bool
  isReadable : Bool
  isWriteable : Bool
  isExecutable : Bool
  lastReadTime : Int
  lastModifiedTime : Int
  createTime : Int
  infoCompleted : Bool
deriving DecidableEq, Repr

/-- A `QSharedPointer<SortFileInfo>`; `none` is the null pointer. -/
abbrev SortInfoPointer := Option SortFileInfo

/-- The `RootInfo::EventType` of a queued watcher event. -/
inductive EventType where
  | kAddFile
  | kUpdateFile
  | kRmFile
deriving DecidableEq, Repr

/-- A queued watcher event, `QPair<QUrl, EventType>`. -/
structure Event where
  first : QUrl
  second : EventType
deriving DecidableEq, Repr

/-- A `TraversalDirThreadManager`, reduced to what `RootInfo` drives. -/
structure TraversalDirThreadManager where
  traversalToken : String
  sortOrder : SortOrder
  sortRole : ItemRoles
  isMixDirAndFile : Bool
  connected : Bool
  running : Bool
  stopRequested : Bool
deriving DecidableEq, Repr

/-- A `DirIteratorThread`: the traversal thread of one key and the sort
arguments it was created with. -/
structure DirIteratorThread where
  traversalThread : TraversalDirThreadManager
  originSortRole : SortRoleCompareFlag
  originMixSort : Bool
  originSortOrder : SortOrder
deriving DecidableEq, Repr

/-- An `AbstractFileWatcher` created for the root. -/
structure AbstractFileWatcher where
  url : QUrl
  connected : Bool
  running : Bool
deriving DecidableEq, Repr

/-- One entry of the log: a signal emitted by `RootInfo`, a call into an
external singleton, or the entry into one of the three apply functions. -/
inductive Effect where
  | traversalFinished (token : String) (noDataProduced : Bool)
  | iteratorAddFiles (token : String) (sortInfos : List SortInfoPointer)
      (infos : List FileInfoPointer) (isFirst : Bool)
  | iteratorUpdateFiles (token : String) (datas : List SortInfoPointer) (isFirst : Bool)
  | iteratorLocalFiles (token : String) (children : List SortInfoPointer)
      (role : SortRoleCompareFlag) (order : SortOrder) (mix : Bool) (isFirst : Bool)
  | sourceDatas (token : String) (datas : List SortInfoPointer)
      (role : SortRoleCompareFlag) (order : SortOrder) (mix : Bool) (isFinished : Bool)
  | watcherAddFiles (children : List SortInfoPointer)
  | watcherRemoveFiles (children : List SortInfoPointer)
  | watcherUpdateFiles (children : List SortInfoPointer)
  | watcherUpdateHideFile (url : QUrl)
  | requestCloseTab (url : QUrl)
  | requestClearRoot (url : QUrl)
  | requestSort (token : String) (url : QUrl)
  | renameFileProcessStarted
  | removeCacheFileInfo (urls : List QUrl)
  | removeCacheWatcherByParent (url : QUrl)
  | refreshCacheInfo (url : QUrl)
  | invokeDoThreadWatcherEvent
  | callAddChildren (urls : List QUrl)
  | callUpdateChildren (urls : List QUrl)
  | callRemoveChildren (urls : List QUrl)
deriving DecidableEq, Repr

/-- The code `RootInfo` calls that is not part of `rootinfo.cpp`. -/
structure Collaborators where
  /-- `QUrl::isValid`. -/
  isValid : QUrl → Bool
  /-- `UniversalUtils::urlEquals`. -/
  urlEquals : QUrl → QUrl → Bool
  /-- `InfoFactory::create<FileInfo>(url, kCreateFileInfoSync)`. -/
  createFileInfo : QUrl → FileInfoPointer
  /-- The fallback of `RootInfo::fileInfo`: the URL is rebuilt under the
  watcher's URL and handed to `InfoFactory::create<FileInfo>` again. -/
  createFromWatcherUrl : QUrl → QUrl → FileInfoPointer
  /-- Whether `WatcherFactory::create<AbstractFileWatcher>` yields a watcher. -/
  canCreateWatcher : QUrl → Bool
  /-- Whether `InfoCacheController::getCacheInfo` finds an entry. -/
  hasCacheInfo : QUrl → Bool

/-! ## The state of a `RootInfo` -/

/-- The members of `RootInfo` together with the log of effects. -/
structure RootInfo where
  url : QUrl
  canCache : Bool
  hiddenFileUrl : QUrl
  childrenUrlList : List QUrl
  sourceDataList : List SortInfoPointer
  traversalThreads : List (String × DirIteratorThread)
  discardedThread : List TraversalDirThreadManager
  watcher : Option AbstractFileWatcher
  watcherEvent : List Event
  traversaling : Bool
  traversalFinish : Bool
  isRefresh : Bool
  isFirstBatch : Bool
  needStartWatcher : Bool
  cancelWatcherEvent : Bool
  processFileEventRuning : Bool
  connected : Bool
  originSortRole : SortRoleCompareFlag
  originSortOrder : SortOrder
  originMixSort : Bool
  log : List Effect
deriving DecidableEq, Repr

/-- The statement `emit s`. -/
def RootInfo.emit (r : RootInfo) (e : Effect) : RootInfo :=
  { r with log := r.log ++ [e] }

/-! ## Qt containers -/

/-- `QList::removeOne`: removes the first occurrence. -/
def removeOne (l : List QUrl) (x : QUrl) : List QUrl := l.erase x

/-- `QList::indexOf`: the index of the first occurrence, `-1` when absent. -/
def indexOf (l : List QUrl) (x : QUrl) : Int :=
  if x ∈ l then (l.indexOf x : Int) else -1

/-- `QList::replace(i, v)` for an index obtained from `indexOf`. -/
def replace (l : List SortInfoPointer) (i : Int) (v : SortInfoPointer) : List SortInfoPointer :=
  if 0 ≤ i then l.set i.toNat v else l

/-- `QList::removeAt(i)`. -/
def removeAt (l : List QUrl) (i : Int) : List QUrl := l.eraseIdx i.toNat

/-- `QList::takeAt(i)`: the element at `i` and the list without it.  Past the
end of the list (where Qt's behaviour is undefined) the model yields the null
pointer and leaves the list alone. -/
def takeAt (l : List SortInfoPointer) (i : Int) : SortInfoPointer × List SortInfoPointer :=
  (l.getD i.toNat none, l.eraseIdx i.toNat)

/-- `QMap::value(key)`: the thread stored for `key`, null when there is none. -/
def threadValue (m : List (String × DirIteratorThread)) (key : String) : Option DirIteratorThread :=
  (m.find? (fun p => p.1 == key)).map Prod.snd

/-- `QMap::contains(key)`. -/
def threadContains (m : List (String × DirIteratorThread)) (key : String) : Bool :=
  (threadValue m key).isSome

/-- `QMap::insert(key, value)`: replaces the value of an existing key. -/
def threadInsert (m : List (String × DirIteratorThread)) (key : String) (v : DirIteratorThread) :
    List (String × DirIteratorThread) :=
  if threadContains m key then m.map (fun p => if p.1 == key then (key, v) else p)
  else m ++ [(key, v)]

/-! ## Queue of watcher events -/

/-- `RootInfo::checkFileEventQueue`. -/
def checkFileEventQueue (r : RootInfo) : Bool := !r.watcherEvent.isEmpty

/-- `RootInfo::enqueueEvent`. -/
def enqueueEvent (r : RootInfo) (e : Event) : RootInfo :=
  { r with watcherEvent := r.watcherEvent ++ [e] }

/-- `RootInfo::dequeueEvent`; on an empty queue the value-initialised pair is
returned. -/
def dequeueEvent (r : RootInfo) : Event × RootInfo :=
  match r.watcherEvent with
  | [] => (⟨⟨"", ""⟩, EventType.kAddFile⟩, r)
  | e :: rest => (e, { r with watcherEvent := rest })

/-- `RootInfo::doFileDeleted`. -/
def doFileDeleted (r : RootInfo) (url : QUrl) : RootInfo :=
  (enqueueEvent r ⟨url, EventType.kRmFile⟩).emit Effect.invokeDoThreadWatcherEvent

/-- `RootInfo::dofileCreated`. -/
def dofileCreated (r : RootInfo) (url : QUrl) : RootInfo :=
  (enqueueEvent r ⟨url, EventType.kAddFile⟩).emit Effect.invokeDoThreadWatcherEvent

/-- `RootInfo::doFileUpdated`. -/
def doFileUpdated (r : RootInfo) (url : QUrl) : RootInfo :=
  (enqueueEvent r ⟨url, EventType.kUpdateFile⟩).emit Effect.invokeDoThreadWatcherEvent

/-- `RootInfo::dofileMoved`. -/
def dofileMoved (c : Collaborators) (r : RootInfo) (fromUrl toUrl : QUrl) : RootInfo :=
  let r := r.emit Effect.renameFileProcessStarted
  let r := doFileDeleted r fromUrl
  let r := if c.hasCacheInfo toUrl then r.emit (Effect.refreshCacheInfo toUrl) else r
  dofileCreated r toUrl

/-! ## Building records and mutating the snapshot -/

/-- `RootInfo::fileInfo`. -/
def fileInfo (c : Collaborators) (r : RootInfo) (url : QUrl) : FileInfoPointer :=
  match c.createFileInfo url with
  | some info => some info
  | none =>
    match r.watcher with
    | none => none
    | some w => c.createFromWatcherUrl w.url url

/-- `RootInfo::sortFileInfo`. -/
def sortFileInfo (info : FileInfoPointer) : SortInfoPointer :=
  match info with
  | none => none
  | some i =>
    some { url := i.url
           size := i.size
           isFile := !i.isDir
           isDir := i.isDir
           isHide := i.isHidden
           isSymlink := i.isSymLink
           isReadable := i.isReadable
           isWriteable := i.isWritable
           isExecutable := i.isExecutable
           lastReadTime := i.lastRead
           lastModifiedTime := i.lastModified
           createTime := i.createTime
           infoCompleted := true }

/-- `RootInfo::addChild`. -/
def addChild (r : RootInfo) (child : FileInfoPointer) : SortInfoPointer × RootInfo :=
  match child with
  | none => (none, r)
  | some info =>
    let childUrl := info.url.setPathPath
    match sortFileInfo (some info) with
    | none => (none, r)
    | some sort =>
      if childUrl ∈ r.childrenUrlList then
        (some sort,
          { r with sourceDataList :=
              replace r.sourceDataList (indexOf r.childrenUrlList childUrl) (some sort) })
      else
        (some sort,
          { r with childrenUrlList := r.childrenUrlList ++ [childUrl]
                   sourceDataList := r.sourceDataList ++ [some sort] })

/-- The loop of `RootInfo::addChildren(const QList<QUrl> &)`: the state, the
collected `newSortInfo` and `hasHiddenFile`. -/
def addChildrenLoop (c : Collaborators) :
    List QUrl → RootInfo → List SortInfoPointer → Bool → RootInfo × List SortInfoPointer × Bool
  | [], r, newSortInfo, hasHiddenFile => (r, newSortInfo, hasHiddenFile)
  | url :: rest, r, newSortInfo, hasHiddenFile =>
    let url := url.setPathPath
    match fileInfo c r url with
    | none => addChildrenLoop c rest r newSortInfo hasHiddenFile
    | some child =>
      let hasHiddenFile := if c.urlEquals url r.hiddenFileUrl then true else hasHiddenFile
      match addChild r (some child) with
      | (some sortInfo, r) => addChildrenLoop c rest r (newSortInfo ++ [some sortInfo]) hasHiddenFile
      | (none, r) => addChildrenLoop c rest r newSortInfo hasHiddenFile

/-- `RootInfo::addChildren(const QList<QUrl> &)`; the first log entry records
the call and its argument. -/
def addChildren (c : Collaborators) (r : RootInfo) (urlList : List QUrl) : RootInfo :=
  let r := r.emit (Effect.callAddChildren urlList)
  match addChildrenLoop c urlList r [] false with
  | (r, newSortInfo, hasHiddenFile) =>
    let r :=
      if newSortInfo.length > 0 then
        ({ r with originSortRole := SortRoleCompareFlag.kSortRoleCompareDefault }).emit
          (Effect.watcherAddFiles newSortInfo)
      else r
    if hasHiddenFile then r.emit (Effect.watcherUpdateHideFile r.hiddenFileUrl) else r

/-- `RootInfo::addChildren(const QList<FileInfoPointer> &)`. -/
def addChildren_FileInfoPointer (r : RootInfo) (children : List FileInfoPointer) : RootInfo :=
  children.foldl (fun r child => (addChild r child).2) r

/-- `RootInfo::addChildren(const QList<SortInfoPointer> &)`. -/
def addChildren_SortInfoPointer (r : RootInfo) (children : List SortInfoPointer) : RootInfo :=
  children.foldl
    (fun r file =>
      match file with
      | none => r
      | some f =>
        { r with childrenUrlList := r.childrenUrlList ++ [f.url]
                 sourceDataList := r.sourceDataList ++ [some f] })
    r

/-- The loop of `RootInfo::removeChildren`: the state, the collected
`removeChildren` and `removeUrls`. -/
def removeChildrenLoop (c : Collaborators) :
    List QUrl → RootInfo → List SortInfoPointer → List QUrl →
      RootInfo × List SortInfoPointer × List QUrl
  | [], r, removed, removeUrls => (r, removed, removeUrls)
  | url :: rest, r, removed, removeUrls =>
    let r := r.emit (Effect.removeCacheWatcherByParent url)
    let r := r.emit (Effect.requestCloseTab url)
    let url := url.setPathPath
    match fileInfo c r url with
    | none => removeChildrenLoop c rest r removed removeUrls
    | some child =>
      let realUrl := child.url
      let removeUrls := removeUrls ++ [realUrl]
      let childIndex := indexOf r.childrenUrlList realUrl
      if childIndex < 0 ∨ childIndex ≥ (r.childrenUrlList.length : Int) then
        removeChildrenLoop c rest r (removed ++ [sortFileInfo (some child)]) removeUrls
      else
        let taken := takeAt r.sourceDataList childIndex
        let r := { r with childrenUrlList := removeAt r.childrenUrlList childIndex
                          sourceDataList := taken.2 }
        removeChildrenLoop c rest r (removed ++ [taken.1]) removeUrls

/-- `RootInfo::removeChildren`; the first log entry records the call and its
argument. -/
def removeChildren (c : Collaborators) (r : RootInfo) (urlList : List QUrl) : RootInfo :=
  let r := r.emit (Effect.callRemoveChildren urlList)
  let r := r.emit (Effect.removeCacheFileInfo urlList)
  match removeChildrenLoop c urlList r [] [] with
  | (r, removed, removeUrls) =>
    let r := if removeUrls.length > 0 then r.emit (Effect.removeCacheFileInfo removeUrls) else r
    let r := if removed.length > 0 then r.emit (Effect.watcherRemoveFiles removed) else r
    if r.hiddenFileUrl ∈ removeUrls then r.emit (Effect.watcherUpdateHideFile r.hiddenFileUrl)
    else r

/-- `RootInfo::updateChild`. -/
def updateChild (c : Collaborators) (r : RootInfo) (url : QUrl) : SortInfoPointer × RootInfo :=
  match fileInfo c r url with
  | none => (none, r)
  | some info =>
    let realUrl := info.url
    if realUrl ∉ r.childrenUrlList then (none, r)
    else
      match sortFileInfo (some info) with
      | none => (none, r)
      | some sort =>
        let r := { r with sourceDataList :=
                     replace r.sourceDataList (indexOf r.childrenUrlList realUrl) (some sort) }
        let r := if c.urlEquals r.hiddenFileUrl url then r.emit (Effect.watcherUpdateHideFile url)
                 else r
        (some sort, r)

/-- The loop of `RootInfo::updateChildren`. -/
def updateChildrenLoop (c : Collaborators) :
    List QUrl → RootInfo → List SortInfoPointer → RootInfo × List SortInfoPointer
  | [], r, updates => (r, updates)
  | url :: rest, r, updates =>
    match updateChild c r url with
    | (some sort, r) => updateChildrenLoop c rest r (updates ++ [some sort])
    | (none, r) => updateChildrenLoop c rest r updates

/-- `RootInfo::updateChildren`; the first log entry records the call and its
argument. -/
def updateChildren (c : Collaborators) (r : RootInfo) (urls : List QUrl) : RootInfo :=
  let r := r.emit (Effect.callUpdateChildren urls)
  match updateChildrenLoop c urls r [] with
  | (r, updates) => if updates.isEmpty then r else r.emit (Effect.watcherUpdateFiles updates)

/-! ## Traversal sessions -/

/-- `RootInfo::startWatcher`. -/
def startWatcher (c : Collaborators) (r : RootInfo) : RootInfo :=
  if r.needStartWatcher == false then r
  else
    let r := { r with needStartWatcher := false }
    if c.canCreateWatcher r.url then
      { r with watcher := some { url := r.url, connected := true, running := true } }
    else { r with watcher := none }

/-- `RootInfo::handleGetSourceData`. -/
def handleGetSourceData (c : Collaborators) (r : RootInfo) (currentToken : String) : RootInfo :=
  let r := if r.needStartWatcher then startWatcher c r else r
  let newDatas := r.sourceDataList
  let isEmpty := r.sourceDataList.isEmpty
  let r := r.emit (Effect.sourceDatas currentToken newDatas r.originSortRole r.originSortOrder
    r.originMixSort (!r.traversaling))
  if !r.traversaling then r.emit (Effect.traversalFinished currentToken isEmpty) else r

/-- The call `traversalThreads.value(key)->traversalThread->start()`. -/
def startThread (m : List (String × DirIteratorThread)) (key : String) :
    List (String × DirIteratorThread) :=
  m.map (fun p =>
    if p.1 == key then
      (p.1, { p.2 with traversalThread := { p.2.traversalThread with running := true } })
    else p)

/-- `RootInfo::startWork`. -/
def startWork (c : Collaborators) (r : RootInfo) (key : String) (getCache : Bool) : RootInfo :=
  if !threadContains r.traversalThreads key then r
  else if getCache then handleGetSourceData c r key
  else
    let r := { r with traversaling := true }
    let r := { r with childrenUrlList := [], sourceDataList := [] }
    { r with traversalThreads := startThread r.traversalThreads key }

/-- The switch of `initThreadOfFileData` from the item role to the sort role. -/
def originSortRoleOf (role : ItemRoles) : SortRoleCompareFlag :=
  match role with
  | ItemRoles.kItemFileDisplayNameRole => SortRoleCompareFlag.kSortRoleCompareFileName
  | ItemRoles.kItemFileSizeRole => SortRoleCompareFlag.kSortRoleCompareFileSize
  | ItemRoles.kItemFileLastReadRole => SortRoleCompareFlag.kSortRoleCompareFileLastRead
  | ItemRoles.kItemFileLastModifiedRole => SortRoleCompareFlag.kSortRoleCompareFileLastModified
  | ItemRoles.kItemUnknowRole => SortRoleCompareFlag.kSortRoleCompareDefault

/-- `RootInfo::initThreadOfFileData`: the returned `isGetCache` and the state. -/
def initThreadOfFileData (r : RootInfo) (key : String) (role : ItemRoles) (order : SortOrder)
    (isMixFileAndFolder : Bool) : Bool × RootInfo :=
  let r := { r with discardedThread := r.discardedThread.filter (fun t => t.running) }
  let isGetCache :=
    match threadValue r.traversalThreads key with
    | some _ => r.canCache
    | none =>
      let isGetCache := (r.canCache && r.traversalFinish) || r.traversaling
      if r.canCache && r.traversalFinish && r.isRefresh then false else isGetCache
  let traversalThread : DirIteratorThread :=
    { traversalThread :=
        { traversalToken := key, sortOrder := order, sortRole := role
          isMixDirAndFile := isMixFileAndFolder
          connected := true, running := false, stopRequested := false }
      originSortRole := originSortRoleOf role
      originMixSort := isMixFileAndFolder
      originSortOrder := order }
  (isGetCache, { r with traversalThreads := threadInsert r.traversalThreads key traversalThread })

/-- `RootInfo::setFirstBatch`. -/
def setFirstBatch (r : RootInfo) (first : Bool) : RootInfo :=
  { r with isFirstBatch := first }

/-- The call `thread->traversalThread->stop()`. -/
def stopTraversal (p : String × DirIteratorThread) : String × DirIteratorThread :=
  (p.1, { p.2 with traversalThread := { p.2.traversalThread with stopRequested := true } })

/-- The calls `thread->disconnect(); thread->stop(); thread->quit()`. -/
def stopDiscarded (t : TraversalDirThreadManager) : TraversalDirThreadManager :=
  { t with connected := false, stopRequested := true }

/-- The calls `watcher->disconnect(this); watcher->stopWatcher()`. -/
def stopWatcher (w : AbstractFileWatcher) : AbstractFileWatcher :=
  { w with connected := false, running := false }

/-- `RootInfo::reset`. -/
def reset (r : RootInfo) : RootInfo :=
  let r := { r with connected := false }
  let r := { r with childrenUrlList := [], sourceDataList := [] }
  let r := { r with watcher := r.watcher.map stopWatcher }
  let r := { r with traversaling := false, traversalFinish := false }
  let r := { r with cancelWatcherEvent := true }
  let r := { r with traversalThreads := r.traversalThreads.map stopTraversal }
  { r with discardedThread := r.discardedThread.map stopDiscarded }

/-- The loop of `RootInfo::handleTraversalResults`: the state, `sortInfos` and
`infos`. -/
def handleTraversalResultsLoop :
    List FileInfoPointer → RootInfo → List SortInfoPointer → List FileInfoPointer →
      RootInfo × List SortInfoPointer × List FileInfoPointer
  | [], r, sortInfos, infos => (r, sortInfos, infos)
  | info :: rest, r, sortInfos, infos =>
    match addChild r info with
    | (none, r) => handleTraversalResultsLoop rest r sortInfos infos
    | (some sortInfo, r) =>
      handleTraversalResultsLoop rest r (sortInfos ++ [some sortInfo]) (infos ++ [info])

/-- `RootInfo::handleTraversalResults`. -/
def handleTraversalResults (r : RootInfo) (children : List FileInfoPointer)
    (travseToken : String) : RootInfo :=
  match handleTraversalResultsLoop children r [] [] with
  | (r, sortInfos, infos) =>
    if sortInfos.length > 0 then
      let isFirst := r.isFirstBatch
      let r := { r with isFirstBatch := false }
      r.emit (Effect.iteratorAddFiles travseToken sortInfos infos isFirst)
    else r

/-- `RootInfo::handleTraversalResultsUpdate`. -/
def handleTraversalResultsUpdate (r : RootInfo) (children : List SortInfoPointer)
    (travseToken : String) : RootInfo :=
  if children.isEmpty then r
  else
    let r := { r with sourceDataList := children }
    let isFirst := r.isFirstBatch
    let r := { r with isFirstBatch := false }
    r.emit (Effect.iteratorUpdateFiles travseToken r.sourceDataList isFirst)

/-- `RootInfo::handleTraversalLocalResult`. -/
def handleTraversalLocalResult (r : RootInfo) (children : List SortInfoPointer)
    (sortRole : SortRoleCompareFlag) (sortOrder : SortOrder) (isMixDirAndFile : Bool)
    (travseToken : String) : RootInfo :=
  let r := { r with originSortRole := sortRole, originSortOrder := sortOrder
                    originMixSort := isMixDirAndFile }
  if children.isEmpty then r
  else
    let r := addChildren_SortInfoPointer r children
    let isFirst := r.isFirstBatch
    let r := { r with isFirstBatch := false }
    r.emit (Effect.iteratorLocalFiles travseToken children r.originSortRole r.originSortOrder
      r.originMixSort isFirst)

/-- `RootInfo::handleTraversalFinish`. -/
def handleTraversalFinish (r : RootInfo) (travseToken : String) : RootInfo :=
  let r := { r with traversaling := false }
  let noDataProduced := r.isFirstBatch
  let r := { r with isFirstBatch := false }
  let r := r.emit (Effect.traversalFinished travseToken noDataProduced)
  let r := { r with traversalFinish := true }
  if r.isRefresh then { r with isRefresh := false } else r

/-! ## The coalescing loop `doWatcherEvent` -/

/-- The local variables of `doWatcherEvent`. -/
structure Work where
  adds : List QUrl
  updates : List QUrl
  removes : List QUrl
  oldtime : Int
  emptyLoopCount : Int
deriving DecidableEq, Repr

/-- The locals as declared before the loop. -/
def Work.init : Work :=
  { adds := [], updates := [], removes := [], oldtime := 0, emptyLoopCount := 0 }

/-- What the rest of the program does to one iteration of the loop: the events
the watcher slots enqueue, the readings of `timer.elapsed()`, and whether
`cancelWatcherEvent` has been set by the time it is read. -/
structure Tick where
  /-- Events enqueued before the loop condition (line 343) is evaluated. -/
  arrivals : List Event
  /-- Events enqueued between the loop condition and the check of line 364. -/
  lateArrivals : List Event
  /-- The reading `timer.elapsed()` of line 343. -/
  elapsedCond : Int
  /-- The reading of line 345. -/
  elapsedCheck : Int
  /-- The reading of line 358. -/
  elapsedFlush : Int
  /-- The reading of line 370. -/
  elapsedSleep : Int
  /-- Whether `cancelWatcherEvent` is set before line 361. -/
  cancelA : Bool
  /-- Whether it is set before line 380. -/
  cancelB : Bool
  /-- Whether it is set before line 401. -/
  cancelC : Bool
deriving DecidableEq, Repr

/-- How one iteration ends: `next` goes round the loop again (`continue` or the
end of the body), `leave` falls out of the loop (`break`, or the condition is
false), `returned` is a `return` from inside the loop. -/
inductive Flow where
  | next
  | leave
  | returned
deriving DecidableEq, Repr

/-- The events other threads enqueue. -/
def enqueueAll (r : RootInfo) (es : List Event) : RootInfo :=
  es.foldl enqueueEvent r

/-- Another thread (`reset`, the destructor) sets `cancelWatcherEvent`. -/
def observeCancel (r : RootInfo) (flag : Bool) : RootInfo :=
  if flag then { r with cancelWatcherEvent := true } else r

/-- Lines 404 to 423: the merge of one event into the working lists. -/
def mergeEvent (w : Work) (event : Event) : Work :=
  let fileUrl := event.first
  if event.second = EventType.kAddFile then
    let w := { w with updates := removeOne w.updates fileUrl }
    let w := { w with removes := removeOne w.removes fileUrl }
    if fileUrl ∈ w.adds then w
    else { w with adds := w.adds ++ [fileUrl] }
  else if event.second = EventType.kUpdateFile then
    if fileUrl ∈ w.adds ∨ fileUrl ∈ w.removes ∨ fileUrl ∈ w.updates then w
    else { w with updates := w.updates ++ [fileUrl] }
  else
    let w := { w with adds := removeOne w.adds fileUrl }
    let w := { w with updates := removeOne w.updates fileUrl }
    if fileUrl ∈ w.removes then w
    else { w with removes := w.removes ++ [fileUrl] }

/-- Lines 345 to 359: the flush taken when 200 ms have passed since `oldtime`. -/
def periodicFlush (c : Collaborators) (t : Tick) (r : RootInfo) (w : Work) : RootInfo × Work :=
  let r := if !w.adds.isEmpty then addChildren c r w.adds else r
  let r := if !w.updates.isEmpty then updateChildren c r w.updates else r
  let r := if !w.removes.isEmpty then removeChildren c r w.removes else r
  (r, { w with adds := [], updates := [], removes := [], oldtime := t.elapsedFlush })

/-- Lines 386 to 396: what the root-delete branch does before its `break`. -/
def clearRoot (r : RootInfo) (fileUrl : QUrl) : RootInfo :=
  let r := r.emit (Effect.removeCacheFileInfo [fileUrl])
  let r := r.emit (Effect.removeCacheWatcherByParent fileUrl)
  let r := r.emit (Effect.requestCloseTab fileUrl)
  let r := r.emit (Effect.requestClearRoot fileUrl)
  { r with childrenUrlList := [], sourceDataList := [] }

/-- One evaluation of the loop condition followed, when it holds, by one
execution of the loop body (lines 343 to 424). -/
def loopIteration (c : Collaborators) (t : Tick) (r : RootInfo) (w : Work) :
    Flow × RootInfo × Work :=
  let r := enqueueAll r t.arrivals
  if !(checkFileEventQueue r || decide (t.elapsedCond < 200)) then (Flow.leave, r, w)
  else
    let rw := if t.elapsedCheck - w.oldtime ≥ 200 then periodicFlush c t r w else (r, w)
    let r := observeCancel rw.1 t.cancelA
    let w := rw.2
    if r.cancelWatcherEvent then (Flow.returned, r, w)
    else
      let r := enqueueAll r t.lateArrivals
      if !checkFileEventQueue r then
        if w.emptyLoopCount ≥ 5 then (Flow.leave, r, w)
        else
          let w := if w.adds.isEmpty && w.updates.isEmpty && w.removes.isEmpty
                   then { w with oldtime := t.elapsedSleep } else w
          (Flow.next, r, { w with emptyLoopCount := w.emptyLoopCount + 1 })
      else
        let w := { w with emptyLoopCount := 0 }
        let er := dequeueEvent r
        let event := er.1
        let fileUrl := event.first
        let r := observeCancel er.2 t.cancelB
        if r.cancelWatcherEvent then (Flow.returned, r, w)
        else if !c.isValid fileUrl then (Flow.next, r, w)
        else if c.urlEquals fileUrl r.url && event.second = EventType.kAddFile then
          (Flow.next, r, w)
        else if c.urlEquals fileUrl r.url && event.second = EventType.kRmFile then
          (Flow.leave, clearRoot r fileUrl, w)
        else
          let r := observeCancel r t.cancelC
          if r.cancelWatcherEvent then (Flow.returned, r, w)
          else (Flow.next, r, mergeEvent w event)

/-- The loop of `doWatcherEvent` run for at most one iteration per given
`Tick`: it stops at the first iteration that leaves the loop or returns; the
flow is `next` when the ticks ran out first. -/
def iterations (c : Collaborators) : List Tick → RootInfo → Work → Flow × RootInfo × Work
  | [], r, w => (Flow.next, r, w)
  | t :: ts, r, w =>
    match loopIteration c t r w with
    | (Flow.next, r, w) => iterations c ts r w
    | res => res

/-- The `while` loop of `doWatcherEvent`, one `Tick` per iteration; `none`
when the ticks run out before the loop is left. -/
def runLoop (c : Collaborators) (ticks : List Tick) (r : RootInfo) (w : Work) :
    Option (Flow × RootInfo × Work) :=
  match iterations c ticks r w with
  | (Flow.next, _, _) => none
  | res => some res

/-- Lines 425 to 433: what follows the loop. -/
def finalFlush (c : Collaborators) (r : RootInfo) (w : Work) : RootInfo :=
  let r := { r with processFileEventRuning := false }
  let r := if !w.removes.isEmpty then removeChildren c r w.removes else r
  let r := if !w.adds.isEmpty then addChildren c r w.adds else r
  if !w.updates.isEmpty then updateChildren c r w.updates else r

/-- `RootInfo::doWatcherEvent`; `none` when the ticks run out before the loop
is left. -/
def doWatcherEvent (c : Collaborators) (ticks : List Tick) (r : RootInfo) : Option RootInfo :=
  if r.processFileEventRuning then some r
  else
    let r := { r with processFileEventRuning := true }
    match runLoop c ticks r Work.init with
    | none => none
    | some (Flow.returned, r, _) => some r
    | some (_, r, w) => some (finalFlush c r w)

/-! ## Predicates used by the statements -/

/-- The entries of a list that belong to identities other than `u`, in order. -/
def others (u : QUrl) (l : List QUrl) : List QUrl := l.filter (fun v => v != u)

/-- The working lists hold every identity under at most one kind and at most
once: each list is duplicate-free and the three are pairwise disjoint. -/
def Coalesced (w : Work) : Prop :=
  w.adds.Nodup ∧ w.updates.Nodup ∧ w.removes.Nodup ∧
    w.adds.Disjoint w.updates ∧ w.adds.Disjoint w.removes ∧ w.updates.Disjoint w.removes

/-- An iteration in which nothing happens outside the loop: no event arrives,
`cancelWatcherEvent` is not set, and every clock reading is below 200 ms. -/
def Tick.calm (t : Tick) : Prop :=
  t.arrivals = [] ∧ t.lateArrivals = [] ∧ t.cancelA = false ∧ t.cancelB = false ∧
    t.cancelC = false ∧ t.elapsedCond < 200 ∧ t.elapsedCheck < 200

/-! ## Concrete collaborators and states -/

/-- The collaborators of a plain local directory: a URL is valid when it has a
scheme, `urlEquals` is equality, every URL resolves to a regular file, and a
watcher can always be created. -/
def localFiles : Collaborators where
  isValid u := u.scheme != ""
  urlEquals a b := a == b
  createFileInfo u :=
    some { url := u, size := 0, isDir := false, isHidden := false, isSymLink := false
           isReadable := true, isWritable := true, isExecutable := false
           lastRead := 0, lastModified := 0, createTime := 0 }
  createFromWatcherUrl _ _ := none
  canCreateWatcher _ := true
  hasCacheInfo _ := false

/-- A `RootInfo` for `url` with an empty snapshot, no session, no watcher,
nothing queued and an empty log. -/
def RootInfo.idle (url : QUrl) : RootInfo where
  url := url
  canCache := true
  hiddenFileUrl := ⟨url.scheme, url.path ++ "/.hidden"⟩
  childrenUrlList := []
  sourceDataList := []
  traversalThreads := []
  discardedThread := []
  watcher := none
  watcherEvent := []
  traversaling := false
  traversalFinish := false
  isRefresh := false
  isFirstBatch := false
  needStartWatcher := true
  cancelWatcherEvent := false
  processFileEventRuning := false
  connected := true
  originSortRole := SortRoleCompareFlag.kSortRoleCompareDefault
  originSortOrder := SortOrder.AscendingOrder
  originMixSort := false
  log := []

/-- A tick in which nothing happens outside the loop and every clock reading
is `ms`. -/
def Tick.quiet (ms : Int) : Tick where
  arrivals := []
  lateArrivals := []
  elapsedCond := ms
  elapsedCheck := ms
  elapsedFlush := ms
  elapsedSleep := ms
  cancelA := false
  cancelB := false
  cancelC := false

/-- The watched directory of the examples. -/
def dirD : QUrl := ⟨"file", "/d"⟩

/-- A file of the examples. -/
def fileA : QUrl := ⟨"file", "/d/a.txt"⟩

/-- Another file of the examples. -/
def fileB : QUrl := ⟨"file", "/d/b.txt"⟩

/-- The events of a burst on one identity: the kinds `ks`, in arrival order,
all for `u`. -/
def burst (u : QUrl) (ks : List EventType) : List Event := ks.map (fun k => ⟨u, k⟩)

/-- The last kind of a burst that is not an update, if there is one. -/
def lastNonUpdate (ks : List EventType) : Option EventType :=
  (ks.filter (fun k => k != EventType.kUpdateFile)).getLast?

/-- One delivery of a traversal thread to its `RootInfo`, with the arguments
of the slot it invokes. -/
inductive Delivery where
  | results (children : List FileInfoPointer) (travseToken : String)
  | resultsUpdate (children : List SortInfoPointer) (travseToken : String)
  | localResult (children : List SortInfoPointer) (sortRole : SortRoleCompareFlag)
      (sortOrder : SortOrder) (isMixDirAndFile : Bool) (travseToken : String)

/-- The slot a delivery invokes: `handleTraversalResults`,
`handleTraversalResultsUpdate` or `handleTraversalLocalResult`. -/
def deliver (r : RootInfo) : Delivery → RootInfo
  | Delivery.results children token => handleTraversalResults r children token
  | Delivery.resultsUpdate children token => handleTraversalResultsUpdate r children token
  | Delivery.localResult children role order mix token =>
    handleTraversalLocalResult r children role order mix token

/-- Whether a log entry is one of the batch signals `iteratorAddFiles`,
`iteratorUpdateFiles`, `iteratorLocalFiles`. -/
def Effect.isBatchSignal : Effect → Bool
  | Effect.iteratorAddFiles _ _ _ _ => true
  | Effect.iteratorUpdateFiles _ _ _ => true
  | Effect.iteratorLocalFiles _ _ _ _ _ _ => true
  | _ => false

/-- The state in which a second request for `"key"` arrives before any
traversal has run: the session of the first request is still registered. -/
def sessionPending : RootInfo :=
  (initThreadOfFileData (RootInfo.idle dirD) "key" ItemRoles.kItemFileDisplayNameRole
    SortOrder.AscendingOrder false).2

/-- The snapshot is aligned: the two lists have the same length and, at every
index, the record of `sourceDataList` is the record of the identity held by
`childrenUrlList`. -/
def Aligned (r : RootInfo) : Prop :=
  r.sourceDataList.map (fun p => p.map SortFileInfo.url) = r.childrenUrlList.map some

/-- The record `sortFileInfo` builds for a regular file at `url`. -/
def recordOf (url : QUrl) : SortInfoPointer := sortFileInfo (localFiles.createFileInfo url)

instance (r : RootInfo) : Decidable (Aligned r) := by
  unfold Aligned
  infer_instance

/-- An operation taking the state `r` to `r'` keeps the snapshot invariants:
alignment is preserved, and so is the absence of duplicates in
`childrenUrlList`. -/
def SnapshotKept (r r' : RootInfo) : Prop :=
  (Aligned r → Aligned r') ∧ (r.childrenUrlList.Nodup → r'.childrenUrlList.Nodup)

/-! ## The rest of a run, and what it hands to the apply step -/

/-- The remainder of a run of `doWatcherEvent` from the start of a loop
iteration with the members `r` and the locals `w`: the loop, then the final
flush unless the loop was left by a `return`; `none` when the ticks run out
before the loop is left. -/
def restOfRun (c : Collaborators) (ticks : List Tick) (r : RootInfo) (w : Work) :
    Option RootInfo :=
  match runLoop c ticks r w with
  | none => none
  | some (Flow.returned, r, _) => some r
  | some (_, r, w) => some (finalFlush c r w)

/-- `RootInfo::doThreadWatcherEvent`, with the task handed to
`QtConcurrent::run` executed at once; the bookkeeping of `watcherEventFutures`
is left out. -/
def doThreadWatcherEvent (c : Collaborators) (ticks : List Tick) (r : RootInfo) :
    Option RootInfo :=
  if r.processFileEventRuning then some r
  else if r.cancelWatcherEvent then some r
  else doWatcherEvent c ticks r

/-- Whether a log entry records a call of `addChildren`, `updateChildren` or
`removeChildren`. -/
def Effect.isApplyCall : Effect → Bool
  | Effect.callAddChildren _ => true
  | Effect.callUpdateChildren _ => true
  | Effect.callRemoveChildren _ => true
  | _ => false

/-- The calls of the three apply functions recorded in a log, in order. -/
def applyCalls (log : List Effect) : List Effect := log.filter Effect.isApplyCall

/-- The identities handed to `addChildren` by the calls of a log, in order. -/
def handedAdds : List Effect → List QUrl
  | [] => []
  | Effect.callAddChildren urls :: rest => urls ++ handedAdds rest
  | _ :: rest => handedAdds rest

/-- The identities handed to `updateChildren` by the calls of a log, in order. -/
def handedUpdates : List Effect → List QUrl
  | [] => []
  | Effect.callUpdateChildren urls :: rest => urls ++ handedUpdates rest
  | _ :: rest => handedUpdates rest

/-- The identities handed to `removeChildren` by the calls of a log, in order. -/
def handedRemoves : List Effect → List QUrl
  | [] => []
  | Effect.callRemoveChildren urls :: rest => urls ++ handedRemoves rest
  | _ :: rest => handedRemoves rest

/-- The step from `r` to `r'` leaves the queue, `cancelWatcherEvent`,
`processFileEventRuning` and the root alone and makes exactly the calls
`calls` of the apply functions. -/
def Applied (r r' : RootInfo) (calls : List Effect) : Prop :=
  r'.watcherEvent = r.watcherEvent ∧ r'.cancelWatcherEvent = r.cancelWatcherEvent ∧
    r'.processFileEventRuning = r.processFileEventRuning ∧ r'.url = r.url ∧
    applyCalls r'.log = applyCalls r.log ++ calls

/-- The call of `f` on `urls` made by a flush: none when the list is empty. -/
def flushCall (f : List QUrl → Effect) (urls : List QUrl) : List Effect :=
  if urls.isEmpty then [] else [f urls]

/-- A third file of the examples. -/
def fileC : QUrl := ⟨"file", "/d/c.txt"⟩

/-- The file created last in the examples. -/
def file0 : QUrl := ⟨"file", "/d/0.txt"⟩

/-- The snapshot after a traversal delivered `a.txt`, `b.txt`, `c.txt` sorted
by name, ascending. -/
def sortedByName : RootInfo :=
  handleTraversalLocalResult (RootInfo.idle dirD) [recordOf fileA, recordOf fileB, recordOf fileC]
    SortRoleCompareFlag.kSortRoleCompareFileName SortOrder.AscendingOrder false "key"

/-- An iteration during which no event arrives and `cancelWatcherEvent` is not
set; the clock readings are arbitrary. -/
def Tick.undisturbed (t : Tick) : Prop :=
  t.arrivals = [] ∧ t.lateArrivals = [] ∧ t.cancelA = false ∧ t.cancelB = false ∧
    t.cancelC = false

/-! ## Deltas -/

/-- Whether a log entry is one of the deltas `watcherAddFiles`,
`watcherRemoveFiles`, `watcherUpdateFiles`. -/
def Effect.isDelta : Effect → Bool
  | Effect.watcherAddFiles _ => true
  | Effect.watcherRemoveFiles _ => true
  | Effect.watcherUpdateFiles _ => true
  | _ => false

/-- The deltas emitted in a log, in order. -/
def deltas (log : List Effect) : List Effect := log.filter Effect.isDelta

/-- The record `removeChildren` puts into its remove delta for an identity that
`fileInfo` resolved to `info`: the one the snapshot holds at the identity's
index, or a fresh one when the snapshot does not hold the identity (lines 679
to 685). -/
def removedRecord (r : RootInfo) (info : FileInfo) : SortInfoPointer :=
  if indexOf r.childrenUrlList info.url < 0
      ∨ indexOf r.childrenUrlList info.url ≥ (r.childrenUrlList.length : Int) then
    sortFileInfo (some info)
  else (takeAt r.sourceDataList (indexOf r.childrenUrlList info.url)).1

/-- The remove delta of a rename away from `url`: none when `fileInfo` does not
resolve `url`. -/
def removeDelta (c : Collaborators) (r : RootInfo) (url : QUrl) : List Effect :=
  match fileInfo c r url with
  | none => []
  | some info => [Effect.watcherRemoveFiles [removedRecord r info]]

/-- The add delta of a rename to `url`: none when `fileInfo` does not resolve
`url`. -/
def addDelta (c : Collaborators) (r : RootInfo) (url : QUrl) : List Effect :=
  match fileInfo c r url with
  | none => []
  | some info => [Effect.watcherAddFiles [sortFileInfo (some info)]]

/-- Collaborators for which no URL resolves to a file info any more, all else
as in `localFiles`. -/
def vanishedFiles : Collaborators :=
  { localFiles with createFileInfo := fun _ => none }

/-- The idle state after `handleTraversalFinish`: no session is registered
under any key, caching is permitted, `traversalFinish` is set, and neither a
refresh nor a traversal is under way. -/
def traversalDone : RootInfo := handleTraversalFinish (RootInfo.idle dirD) "key"

/-! ## Merge step -/

/-- Dropping one occurrence of `u` does not touch the entries of other identities. -/
theorem others_removeOne (l : List QUrl) (u : QUrl) : others u (removeOne l u) = others u l := by
  unfold removeOne others
  induction l with
  | nil => simp
  | cons a l ih =>
    by_cases h : a = u
    · subst h; simp
    · have h' : (a == u) = false := by simpa using h
      rw [List.erase_cons, h']
      have h'' : (a != u) = true := by simpa using h
      simp [List.filter_cons, ih, h'']

/-- Appending `u` does not touch the entries of other identities. -/
theorem others_append_self (l : List QUrl) (u : QUrl) : others u (l ++ [u]) = others u l := by
  simp [others, List.filter_append]

/-- In a duplicate-free list `removeOne` leaves no occurrence behind. -/
theorem not_mem_removeOne {l : List QUrl} (h : l.Nodup) (u : QUrl) : u ∉ removeOne l u := by
  unfold removeOne
  simp [h.mem_erase_iff]

/-- C1. Merge step of `doWatcherEvent`: on duplicate-free working lists,
`Remove(u)` leaves `u` in `removes` only, `Add(u)` leaves `u` in `adds` only,
`Update(u)` changes nothing when `u` is already pending and is appended to
`updates` otherwise; the entries of every other identity stay as they were, in
all three lists. -/
theorem mergeEvent_step (w : Work) (u : QUrl)
    (ha : w.adds.Nodup) (hu : w.updates.Nodup) (hr : w.removes.Nodup) :
    (u ∈ (mergeEvent w ⟨u, EventType.kRmFile⟩).removes
      ∧ u ∉ (mergeEvent w ⟨u, EventType.kRmFile⟩).adds
      ∧ u ∉ (mergeEvent w ⟨u, EventType.kRmFile⟩).updates)
    ∧ (u ∈ (mergeEvent w ⟨u, EventType.kAddFile⟩).adds
      ∧ u ∉ (mergeEvent w ⟨u, EventType.kAddFile⟩).updates
      ∧ u ∉ (mergeEvent w ⟨u, EventType.kAddFile⟩).removes)
    ∧ ((u ∈ w.adds ∨ u ∈ w.removes ∨ u ∈ w.updates) →
        mergeEvent w ⟨u, EventType.kUpdateFile⟩ = w)
    ∧ (¬ (u ∈ w.adds ∨ u ∈ w.removes ∨ u ∈ w.updates) →
        mergeEvent w ⟨u, EventType.kUpdateFile⟩ = { w with updates := w.updates ++ [u] })
    ∧ (∀ k : EventType,
        others u (mergeEvent w ⟨u, k⟩).adds = others u w.adds
        ∧ others u (mergeEvent w ⟨u, k⟩).updates = others u w.updates
        ∧ others u (mergeEvent w ⟨u, k⟩).removes = others u w.removes) := by
  have na := not_mem_removeOne ha u
  have nu := not_mem_removeOne hu u
  have nr := not_mem_removeOne hr u
  refine ⟨?_, ?_, ?_, ?_, ?_⟩
  · by_cases h : u ∈ w.removes <;> simp [mergeEvent, h, na, nu]
  · by_cases h : u ∈ w.adds <;> simp [mergeEvent, h, nu, nr]
  · intro h; simp [mergeEvent, h]
  · intro h; simp [mergeEvent, h]
  · intro k
    cases k
    · by_cases h : u ∈ w.adds <;>
        simp [mergeEvent, h, others_removeOne, others_append_self]
    · by_cases h : u ∈ w.adds ∨ u ∈ w.removes ∨ u ∈ w.updates <;>
        simp [mergeEvent, h, others_removeOne, others_append_self]
    · by_cases h : u ∈ w.removes <;>
        simp [mergeEvent, h, others_removeOne, others_append_self]

/-- The merge of one event keeps the working lists coalesced. -/
theorem mergeEvent_coalesced (w : Work) (e : Event) (h : Coalesced w) :
    Coalesced (mergeEvent w e) := by
  obtain ⟨ha, hu, hr, dau, dar, dur⟩ := h
  obtain ⟨u, k⟩ := e
  have na := not_mem_removeOne ha u
  have nu := not_mem_removeOne hu u
  have nr := not_mem_removeOne hr u
  have ea : (removeOne w.adds u).Nodup := ha.erase u
  have eu : (removeOne w.updates u).Nodup := hu.erase u
  have er : (removeOne w.removes u).Nodup := hr.erase u
  have sa : removeOne w.adds u ⊆ w.adds := List.erase_subset _ _
  have su : removeOne w.updates u ⊆ w.updates := List.erase_subset _ _
  have sr : removeOne w.removes u ⊆ w.removes := List.erase_subset _ _
  cases k
  · by_cases h : u ∈ w.adds
    · simp only [mergeEvent, Coalesced, h, if_true]
      exact ⟨ha, eu, er, fun x hx hx' => dau hx (su hx'), fun x hx hx' => dar hx (sr hx'),
        fun x hx hx' => dur (su hx) (sr hx')⟩
    · simp only [mergeEvent, Coalesced, h, if_true, if_false]
      refine ⟨?_, eu, er, ?_, ?_, fun x hx hx' => dur (su hx) (sr hx')⟩
      · exact List.Nodup.append ha (by simp) (by simpa using h)
      · intro x hx hx'
        rcases List.mem_append.1 hx with hx | hx
        · exact dau hx (su hx')
        · simp at hx; subst hx; exact nu hx'
      · intro x hx hx'
        rcases List.mem_append.1 hx with hx | hx
        · exact dar hx (sr hx')
        · simp at hx; subst hx; exact nr hx'
  · by_cases h : u ∈ w.adds ∨ u ∈ w.removes ∨ u ∈ w.updates
    · simp only [mergeEvent, Coalesced, h, if_true]
      exact ⟨ha, hu, hr, dau, dar, dur⟩
    · have h1 : u ∉ w.adds := fun h' => h (Or.inl h')
      have h2 : u ∉ w.removes := fun h' => h (Or.inr (Or.inl h'))
      have h3 : u ∉ w.updates := fun h' => h (Or.inr (Or.inr h'))
      simp only [mergeEvent, Coalesced, h, if_false]
      simp only [reduceCtorEq, if_false, if_true]
      refine ⟨ha, ?_, hr, ?_, dar, ?_⟩
      · exact List.Nodup.append hu (by simp) (by simpa using h3)
      · intro x hx hx'
        rcases List.mem_append.1 hx' with hx' | hx'
        · exact dau hx hx'
        · simp at hx'; subst hx'; exact h1 hx
      · intro x hx hx'
        rcases List.mem_append.1 hx with hx | hx
        · exact dur hx hx'
        · simp at hx; subst hx; exact h2 hx'
  · by_cases h : u ∈ w.removes
    · simp only [mergeEvent, Coalesced, h, reduceCtorEq, if_true, if_false]
      exact ⟨ea, eu, hr, fun x hx hx' => dau (sa hx) (su hx'), fun x hx hx' => dar (sa hx) hx',
        fun x hx hx' => dur (su hx) hx'⟩
    · simp only [mergeEvent, Coalesced, h, reduceCtorEq, if_true, if_false]
      refine ⟨ea, eu, ?_, fun x hx hx' => dau (sa hx) (su hx'), ?_, ?_⟩
      · exact List.Nodup.append hr (by simp) (by simpa using h)
      · intro x hx hx'
        rcases List.mem_append.1 hx' with hx' | hx'
        · exact dar (sa hx) hx'
        · simp at hx'; subst hx'; exact na hx
      · intro x hx hx'
        rcases List.mem_append.1 hx' with hx' | hx'
        · exact dur (su hx) hx'
        · simp at hx'; subst hx'; exact nu hx

/-- Whether two work records hold the same three lists. -/
theorem Coalesced.of_same_lists {w w' : Work} (h : Coalesced w) (ha : w'.adds = w.adds)
    (hu : w'.updates = w.updates) (hr : w'.removes = w.removes) : Coalesced w' := by
  unfold Coalesced at *
  rw [ha, hu, hr]; exact h

/-- One iteration of the loop keeps the working lists coalesced. -/
theorem loopIteration_coalesced (c : Collaborators) (t : Tick) (r : RootInfo) (w : Work)
    (h : Coalesced w) : Coalesced (loopIteration c t r w).2.2 := by
  have hf : Coalesced
      (if t.elapsedCheck - w.oldtime ≥ 200 then periodicFlush c t (enqueueAll r t.arrivals) w
        else (enqueueAll r t.arrivals, w)).2 := by
    split
    · simp [periodicFlush, Coalesced]
    · exact h
  unfold loopIteration
  dsimp only
  generalize (if t.elapsedCheck - w.oldtime ≥ 200 then periodicFlush c t (enqueueAll r t.arrivals) w
        else (enqueueAll r t.arrivals, w)) = rw at hf
  split_ifs
  all_goals first
    | exact h
    | exact hf
    | exact mergeEvent_coalesced _ _ (hf.of_same_lists rfl rfl rfl)


/-- Any number of iterations keeps the working lists coalesced. -/
theorem iterations_coalesced (c : Collaborators) (ticks : List Tick) (r : RootInfo) (w : Work)
    (h : Coalesced w) : Coalesced (iterations c ticks r w).2.2 := by
  induction ticks generalizing r w with
  | nil => exact h
  | cons t ts ih =>
    have h1 := loopIteration_coalesced c t r w h
    rw [iterations]
    generalize loopIteration c t r w = res at h1
    obtain ⟨f, r', w'⟩ := res
    cases f
    · exact ih _ _ h1
    · exact h1
    · exact h1

/-- Running the loop over two runs of ticks in a row. -/
theorem iterations_append (c : Collaborators) (ts₁ ts₂ : List Tick) (r : RootInfo) (w : Work) :
    iterations c (ts₁ ++ ts₂) r w =
      match iterations c ts₁ r w with
      | (Flow.next, r', w') => iterations c ts₂ r' w'
      | res => res := by
  induction ts₁ generalizing r w with
  | nil => simp [iterations]
  | cons t ts ih =>
    rw [List.cons_append, iterations, iterations]
    generalize loopIteration c t r w = res
    obtain ⟨f, r', w'⟩ := res
    cases f
    · exact ih _ _
    · rfl
    · rfl

/-- An iteration on a calm tick, with no flush due, that finds a valid event at
the head of the queue for which the root branch does not fire, merges it. -/
theorem loopIteration_merge (c : Collaborators) (t : Tick) (r : RootInfo) (w : Work)
    (e : Event) (q : List Event) (ht : t.calm) (hc : r.cancelWatcherEvent = false)
    (hq : r.watcherEvent = e :: q) (hv : c.isValid e.first = true)
    (hroot : c.urlEquals e.first r.url = false ∨ e.second = EventType.kUpdateFile)
    (hold : t.elapsedCheck - w.oldtime < 200) :
    loopIteration c t r w =
      (Flow.next, { r with watcherEvent := q }, mergeEvent { w with emptyLoopCount := 0 } e) := by
  obtain ⟨h1, h2, h3, h4, h5, h6, h7⟩ := ht
  have hn : ¬ (t.elapsedCheck - w.oldtime ≥ 200) := not_le.2 hold
  have hroot' : ¬ (c.urlEquals e.first r.url = true ∧ e.second = EventType.kAddFile) ∧
      ¬ (c.urlEquals e.first r.url = true ∧ e.second = EventType.kRmFile) := by
    rcases hroot with h | h <;> simp [h]
  unfold loopIteration
  simp [h1, h2, h3, h4, h5, hn, enqueueAll, checkFileEventQueue, hq, observeCancel, hc,
    dequeueEvent, hv, hroot'.1, hroot'.2]

/-- The merge of one event leaves `oldtime` and `emptyLoopCount` alone. -/
theorem mergeEvent_counters (w : Work) (e : Event) :
    (mergeEvent w e).oldtime = w.oldtime ∧ (mergeEvent w e).emptyLoopCount = w.emptyLoopCount := by
  unfold mergeEvent
  dsimp only
  split_ifs <;> exact ⟨rfl, rfl⟩

/-- A queue of valid events for which the root branch does not fire, drained on
calm ticks with no flush due, is merged event by event in arrival order. -/
theorem iterations_merge (c : Collaborators) (es : List Event) (ticks : List Tick)
    (r : RootInfo) (w : Work) (hlen : ticks.length = es.length) (ht : ∀ t ∈ ticks, t.calm)
    (hc : r.cancelWatcherEvent = false) (hq : r.watcherEvent = es)
    (hv : ∀ e ∈ es, c.isValid e.first = true ∧
      (c.urlEquals e.first r.url = false ∨ e.second = EventType.kUpdateFile))
    (ho : w.oldtime = 0) (hl : w.emptyLoopCount = 0) :
    iterations c ticks r w = (Flow.next, { r with watcherEvent := [] }, es.foldl mergeEvent w) := by
  induction es generalizing ticks r w with
  | nil =>
    have : ticks = [] := List.length_eq_zero.1 (by simpa using hlen)
    subst this
    have hr : ({ r with watcherEvent := [] } : RootInfo) = r := by
      cases r; simp_all
    simp [iterations, hr]
  | cons e es ih =>
    obtain _ | ⟨t, ts⟩ := ticks
    · simp at hlen
    · have htc : t.calm := ht t (List.mem_cons_self _ _)
      have hstep := loopIteration_merge c t r w e es htc hc hq (hv e (List.mem_cons_self _ _)).1
        (hv e (List.mem_cons_self _ _)).2 (by rw [ho]; have := htc.2.2.2.2.2.2; omega)
      have hw : ({ w with emptyLoopCount := 0 } : Work) = w := by
        obtain ⟨a, up, rm, ot, el⟩ := w
        simp only at hl
        subst hl
        rfl
      rw [hw] at hstep
      rw [iterations, hstep, List.foldl_cons]
      have := ih ts { r with watcherEvent := es } (mergeEvent w e) (by simpa using hlen)
        (fun t' h' => ht t' (List.mem_cons_of_mem _ h')) hc rfl
        (fun e' h' => hv e' (List.mem_cons_of_mem _ h'))
        (by rw [(mergeEvent_counters w e).1, ho]) (by rw [(mergeEvent_counters w e).2, hl])
      simpa using this

/-- A non-empty burst of updates for one identity merges to that identity
once in `updates`. -/
theorem foldl_mergeEvent_updates (u : QUrl) (n : Nat) :
    (List.replicate (n + 1) (⟨u, EventType.kUpdateFile⟩ : Event)).foldl mergeEvent Work.init
      = { Work.init with updates := [u] } := by
  induction n with
  | zero => simp [mergeEvent, Work.init]
  | succ n ih =>
    rw [List.replicate_succ', List.foldl_append, ih]
    simp [mergeEvent, Work.init]

/-- An iteration that finds the queue empty once the window has run out leaves
the loop. -/
theorem loopIteration_window_over (c : Collaborators) (t : Tick) (r : RootInfo) (w : Work)
    (ha : t.arrivals = []) (hq : r.watcherEvent = []) (he : 200 ≤ t.elapsedCond) :
    loopIteration c t r w = (Flow.leave, r, w) := by
  have : ¬ (t.elapsedCond < 200) := not_lt.2 he
  unfold loopIteration
  simp [ha, enqueueAll, checkFileEventQueue, hq, this]

/-- A run whose loop is left (by `break` or by its condition) ends with the
final flush. -/
theorem doWatcherEvent_of_leave (c : Collaborators) (ticks : List Tick) (r r' : RootInfo)
    (w' : Work) (hp : r.processFileEventRuning = false)
    (h : iterations c ticks { r with processFileEventRuning := true } Work.init
      = (Flow.leave, r', w')) :
    doWatcherEvent c ticks r = some (finalFlush c r' w') := by
  rw [doWatcherEvent, if_neg (by simp [hp])]
  simp only [runLoop, h]

/-- C2. Merge invariant of `doWatcherEvent`: from empty working lists, after
any number of loop iterations (whatever events arrive, whatever the clock
reads, periodic flushes included) the three lists are duplicate-free and
pairwise disjoint; and a burst of `n ≥ 1` updates for one valid identity,
merged with no flush in between, leaves `updates = [u]`, `adds = removes = []`,
so that the run ends with one call of `updateChildren` on `[u]`. -/
theorem doWatcherEvent_merge_invariant (c : Collaborators) :
    (∀ (ticks : List Tick) (r : RootInfo), Coalesced (iterations c ticks r Work.init).2.2)
    ∧ (∀ (u : QUrl) (ticks : List Tick) (r : RootInfo),
        c.isValid u = true → ticks ≠ [] → (∀ t ∈ ticks, t.calm) →
        r.cancelWatcherEvent = false →
        r.watcherEvent = List.replicate ticks.length ⟨u, EventType.kUpdateFile⟩ →
        (iterations c ticks r Work.init).2.2.updates = [u]
          ∧ (iterations c ticks r Work.init).2.2.adds = []
          ∧ (iterations c ticks r Work.init).2.2.removes = []
          ∧ ∀ tEnd : Tick, tEnd.arrivals = [] → 200 ≤ tEnd.elapsedCond →
              r.processFileEventRuning = false →
              doWatcherEvent c (ticks ++ [tEnd]) r =
                some (updateChildren c
                  { r with watcherEvent := [], processFileEventRuning := false } [u])) := by
  refine ⟨fun ticks r => iterations_coalesced c ticks r Work.init (by simp [Coalesced, Work.init]), ?_⟩
  intro u ticks r hv hne ht hc hq
  have hit := iterations_merge c _ ticks r Work.init (by simp) ht hc hq
    (fun e he => by rw [List.eq_of_mem_replicate he]; exact ⟨hv, Or.inr rfl⟩) rfl rfl
  obtain ⟨n, hn⟩ : ∃ n, ticks.length = n + 1 :=
    Nat.exists_eq_succ_of_ne_zero (fun h => hne (List.length_eq_zero.1 h))
  rw [hn, foldl_mergeEvent_updates] at hit
  refine ⟨by rw [hit], by rw [hit]; rfl, by rw [hit]; rfl, ?_⟩
  intro tEnd ha he hp
  have hit' := iterations_merge c _ ticks { r with processFileEventRuning := true } Work.init
    (by simp) ht hc hq
    (fun e he => by rw [List.eq_of_mem_replicate he]; exact ⟨hv, Or.inr rfl⟩) rfl rfl
  rw [hn, foldl_mergeEvent_updates] at hit'
  have hrun : iterations c (ticks ++ [tEnd]) { r with processFileEventRuning := true } Work.init
      = (Flow.leave, { r with processFileEventRuning := true, watcherEvent := [] },
          { Work.init with updates := [u] }) := by
    rw [iterations_append, hit']
    simp only [iterations]
    rw [loopIteration_window_over c tEnd _ _ ha rfl he]
  rw [doWatcherEvent_of_leave c _ r _ _ hp hrun]
  simp [finalFlush, Work.init]

/-- The witness of C1: a pending add of `a.txt` is cancelled by its removal. -/
theorem mergeEvent_step_witness :
    ([fileA] : List QUrl).Nodup ∧ ([] : List QUrl).Nodup ∧ ([fileB] : List QUrl).Nodup ∧
      fileA ∈ (mergeEvent { Work.init with adds := [fileA], removes := [fileB] }
        ⟨fileA, EventType.kRmFile⟩).removes :=
  ⟨by decide, by decide, by decide,
    (mergeEvent_step { Work.init with adds := [fileA], removes := [fileB] } fileA
      (by decide) (by decide) (by decide)).1.1⟩

/-- The witness of C2: two updates of `a.txt` within one window end in one
call of `updateChildren` on `[a.txt]`. -/
theorem doWatcherEvent_merge_invariant_witness :
    localFiles.isValid fileA = true ∧ (∀ t ∈ [Tick.quiet 0, Tick.quiet 10], t.calm) ∧
      doWatcherEvent localFiles ([Tick.quiet 0, Tick.quiet 10] ++ [Tick.quiet 200])
          { RootInfo.idle dirD with
            watcherEvent := [⟨fileA, EventType.kUpdateFile⟩, ⟨fileA, EventType.kUpdateFile⟩] }
        = some (updateChildren localFiles (RootInfo.idle dirD) [fileA]) :=
  ⟨by decide, by simp [Tick.calm, Tick.quiet],
    ((doWatcherEvent_merge_invariant localFiles).2 fileA [Tick.quiet 0, Tick.quiet 10]
      { RootInfo.idle dirD with
        watcherEvent := [⟨fileA, EventType.kUpdateFile⟩, ⟨fileA, EventType.kUpdateFile⟩] }
      (by decide) (by simp) (by simp [Tick.calm, Tick.quiet]) rfl rfl).2.2.2
      (Tick.quiet 200) rfl (by decide) rfl⟩

/-! ## Bursts on one identity -/

/-- The last non-update kind of a burst extended by one event. -/
theorem lastNonUpdate_concat (ks : List EventType) (k : EventType) :
    lastNonUpdate (ks ++ [k]) = if k = EventType.kUpdateFile then lastNonUpdate ks else some k := by
  unfold lastNonUpdate
  cases k <;> simp [List.filter_append, List.filter_cons, List.getLast?_concat]

/-- An update is never the last non-update kind. -/
theorem lastNonUpdate_ne_update (ks : List EventType) :
    lastNonUpdate ks ≠ some EventType.kUpdateFile := by
  intro h
  have hm := List.mem_of_getLast?_eq_some h
  simp at hm

/-- The net lists of a burst on one identity, merged from empty lists: they
are fixed by its last non-update kind, and by whether it is empty. -/
theorem foldl_mergeEvent_burst (u : QUrl) (ks : List EventType) :
    (burst u ks).foldl mergeEvent Work.init =
      match lastNonUpdate ks with
      | some EventType.kAddFile => { Work.init with adds := [u] }
      | some EventType.kRmFile => { Work.init with removes := [u] }
      | _ => if ks = [] then Work.init else { Work.init with updates := [u] } := by
  induction ks using List.reverseRecOn with
  | nil => simp [burst, lastNonUpdate]
  | append_singleton ks k ih =>
    rw [burst, List.map_append, List.foldl_append, ← burst, ih, lastNonUpdate_concat]
    clear ih
    cases hl : lastNonUpdate ks with
    | none =>
      by_cases hks : ks = []
      · subst hks; cases k <;> simp [mergeEvent, Work.init, removeOne]
      · cases k <;> simp [mergeEvent, Work.init, hks, removeOne]
    | some k' =>
      cases k'
      · cases k <;> simp [mergeEvent, Work.init, removeOne]
      · exact absurd hl (lastNonUpdate_ne_update ks)
      · cases k <;> simp [mergeEvent, Work.init, removeOne]

/-- The counterexample of C3: `Add, Remove` and `Remove, Add` for `a.txt` are
permutations of each other, yet the first nets a removal and the second an
addition. -/
theorem merge_not_commutative :
    [EventType.kAddFile, EventType.kRmFile].Perm [EventType.kRmFile, EventType.kAddFile]
      ∧ (burst fileA [EventType.kAddFile, EventType.kRmFile]).foldl mergeEvent Work.init
          = { Work.init with removes := [fileA] }
      ∧ (burst fileA [EventType.kRmFile, EventType.kAddFile]).foldl mergeEvent Work.init
          = { Work.init with adds := [fileA] }
      ∧ (burst fileA [EventType.kAddFile, EventType.kRmFile]).foldl mergeEvent Work.init
          ≠ (burst fileA [EventType.kRmFile, EventType.kAddFile]).foldl mergeEvent Work.init :=
  ⟨List.Perm.swap _ _ _, by decide, by decide, by decide⟩

/-- C3, amended. Two orderings of the events of a burst on one identity,
merged from empty working lists with no flush in between, give the same net
lists whenever their last non-update events are of the same kind. -/
theorem merge_same_last_non_update (u : QUrl) (ks₁ ks₂ : List EventType)
    (hp : ks₁.Perm ks₂) (hl : lastNonUpdate ks₁ = lastNonUpdate ks₂) :
    (burst u ks₁).foldl mergeEvent Work.init = (burst u ks₂).foldl mergeEvent Work.init := by
  have he : ks₁ = [] ↔ ks₂ = [] := by
    constructor
    · intro h; subst h; exact hp.symm.eq_nil
    · intro h; subst h; exact hp.eq_nil
  rw [foldl_mergeEvent_burst, foldl_mergeEvent_burst, hl]
  by_cases h : ks₁ = []
  · simp [h, he.1 h]
  · simp [h, mt he.2 h]

/-- The witness of C3: an update may move across the add that follows it. -/
theorem merge_same_last_non_update_witness :
    [EventType.kUpdateFile, EventType.kAddFile].Perm [EventType.kAddFile, EventType.kUpdateFile]
      ∧ lastNonUpdate [EventType.kUpdateFile, EventType.kAddFile]
          = lastNonUpdate [EventType.kAddFile, EventType.kUpdateFile]
      ∧ (burst fileA [EventType.kUpdateFile, EventType.kAddFile]).foldl mergeEvent Work.init
          = (burst fileA [EventType.kAddFile, EventType.kUpdateFile]).foldl mergeEvent Work.init :=
  ⟨List.Perm.swap _ _ _, by decide,
    merge_same_last_non_update fileA _ _ (List.Perm.swap _ _ _) (by decide)⟩

/-! ## Cache-hit decision and delivery -/

/-- The counterexample of C6: a second request for a key whose session is
still registered is answered as a cache hit although no traversal has finished
and none is in flight. -/
theorem initThreadOfFileData_hit_without_traversal :
    sessionPending.canCache = true ∧ sessionPending.traversalFinish = false
      ∧ sessionPending.isRefresh = false ∧ sessionPending.traversaling = false
      ∧ (initThreadOfFileData sessionPending "key" ItemRoles.kItemFileDisplayNameRole
          SortOrder.AscendingOrder false).1 = true := by
  decide

/-- C6, amended. When no session is registered for `key`,
`initThreadOfFileData` returns true only when caching is permitted, a previous
traversal finished and the request is not a refresh, or when a traversal is in
flight; when a session is already registered for `key` it returns `canCache`. -/
theorem initThreadOfFileData_cache_hit (r : RootInfo) (key : String) (role : ItemRoles)
    (order : SortOrder) (isMixFileAndFolder : Bool) :
    (threadContains r.traversalThreads key = false →
      (initThreadOfFileData r key role order isMixFileAndFolder).1 = true →
        (r.canCache = true ∧ r.traversalFinish = true ∧ r.isRefresh = false)
          ∨ r.traversaling = true)
    ∧ (threadContains r.traversalThreads key = true →
      (initThreadOfFileData r key role order isMixFileAndFolder).1 = r.canCache) := by
  constructor
  · intro h
    have hn : threadValue r.traversalThreads key = none := by
      simpa [threadContains] using h
    simp only [initThreadOfFileData, hn]
    cases r.canCache <;> cases r.traversalFinish <;> cases r.isRefresh <;>
      cases r.traversaling <;> simp
  · intro h
    obtain ⟨t, ht⟩ : ∃ t, threadValue r.traversalThreads key = some t := by
      simpa [threadContains, Option.isSome_iff_exists] using h
    simp only [initThreadOfFileData, ht]

/-- The witness of C6: both branches on concrete states. With no session
registered and a finished traversal the function returns true and the three
conditions hold; with a session registered it returns `canCache`. -/
theorem initThreadOfFileData_cache_hit_witness :
    (threadContains traversalDone.traversalThreads "key" = false
      ∧ (initThreadOfFileData traversalDone "key" ItemRoles.kItemFileSizeRole
            SortOrder.DescendingOrder true).1 = true
      ∧ ((traversalDone.canCache = true ∧ traversalDone.traversalFinish = true
              ∧ traversalDone.isRefresh = false)
            ∨ traversalDone.traversaling = true))
    ∧ (threadContains sessionPending.traversalThreads "key" = true
      ∧ (initThreadOfFileData sessionPending "key" ItemRoles.kItemFileSizeRole
            SortOrder.DescendingOrder true).1 = sessionPending.canCache) :=
  ⟨⟨by decide, by decide, (initThreadOfFileData_cache_hit traversalDone "key"
      ItemRoles.kItemFileSizeRole SortOrder.DescendingOrder true).1 (by decide) (by decide)⟩,
    ⟨by decide, (initThreadOfFileData_cache_hit sessionPending "key"
      ItemRoles.kItemFileSizeRole SortOrder.DescendingOrder true).2 (by decide)⟩⟩

/-- C7. Cache-hit delivery: when a session exists for `key`,
`startWork(key, true)` leaves `childrenUrlList`, `sourceDataList`,
`traversaling`, `traversalFinish` and every traversal thread as they were, and
what it emits is `sourceDatas` carrying `sourceDataList` as it was at the call,
followed by `traversalFinished` when no traversal is in flight. -/
theorem startWork_cache_hit (c : Collaborators) (r : RootInfo) (key : String)
    (h : threadContains r.traversalThreads key = true) :
    (startWork c r key true).childrenUrlList = r.childrenUrlList
      ∧ (startWork c r key true).sourceDataList = r.sourceDataList
      ∧ (startWork c r key true).traversaling = r.traversaling
      ∧ (startWork c r key true).traversalFinish = r.traversalFinish
      ∧ (startWork c r key true).traversalThreads = r.traversalThreads
      ∧ (startWork c r key true).log = r.log ++
          (Effect.sourceDatas key r.sourceDataList r.originSortRole r.originSortOrder
              r.originMixSort (!r.traversaling)
            :: if r.traversaling then []
               else [Effect.traversalFinished key r.sourceDataList.isEmpty]) := by
  simp only [startWork, h, handleGetSourceData, startWatcher, RootInfo.emit]
  split_ifs <;> simp_all

/-- The witness of C7: the session registered for `"key"`. -/
theorem startWork_cache_hit_witness :
    threadContains sessionPending.traversalThreads "key" = true
      ∧ (startWork localFiles sessionPending "key" true).traversalThreads
          = sessionPending.traversalThreads
      ∧ (startWork localFiles sessionPending "key" true).sourceDataList
          = sessionPending.sourceDataList :=
  ⟨by decide, (startWork_cache_hit localFiles sessionPending "key" (by decide)).2.2.2.2.1,
    (startWork_cache_hit localFiles sessionPending "key" (by decide)).2.1⟩

/-! ## The empty-result flag -/

/-- `addChild` emits nothing and leaves `isFirstBatch` alone. -/
theorem addChild_log (r : RootInfo) (child : FileInfoPointer) :
    (addChild r child).2.log = r.log ∧ (addChild r child).2.isFirstBatch = r.isFirstBatch := by
  unfold addChild
  cases child with
  | none => exact ⟨rfl, rfl⟩
  | some info =>
    simp only [sortFileInfo]
    split_ifs <;> exact ⟨rfl, rfl⟩

/-- The loop of `handleTraversalResults` emits nothing and leaves
`isFirstBatch` alone. -/
theorem handleTraversalResultsLoop_log (children : List FileInfoPointer) (r : RootInfo)
    (sortInfos : List SortInfoPointer) (infos : List FileInfoPointer) :
    (handleTraversalResultsLoop children r sortInfos infos).1.log = r.log
      ∧ (handleTraversalResultsLoop children r sortInfos infos).1.isFirstBatch
          = r.isFirstBatch := by
  induction children generalizing r sortInfos infos with
  | nil => exact ⟨rfl, rfl⟩
  | cons info rest ih =>
    rw [handleTraversalResultsLoop]
    have h := addChild_log r info
    generalize addChild r info = res at h
    obtain ⟨s, r'⟩ := res
    cases s with
    | none => simp only; rw [(ih _ _ _).1, (ih _ _ _).2]; exact h
    | some s => simp only; rw [(ih _ _ _).1, (ih _ _ _).2]; exact h

/-- `addChildren(const QList<SortInfoPointer> &)` emits nothing and leaves
`isFirstBatch` alone. -/
theorem addChildren_SortInfoPointer_log (children : List SortInfoPointer) (r : RootInfo) :
    (addChildren_SortInfoPointer r children).log = r.log
      ∧ (addChildren_SortInfoPointer r children).isFirstBatch = r.isFirstBatch := by
  unfold addChildren_SortInfoPointer
  induction children generalizing r with
  | nil => exact ⟨rfl, rfl⟩
  | cons f rest ih =>
    rw [List.foldl_cons]
    cases f with
    | none => exact ih r
    | some f => simp only; rw [(ih _).1, (ih _).2]; exact ⟨rfl, rfl⟩

/-- A delivery appends its batch signal, if it emits one, and nothing else;
`isFirstBatch` survives exactly when no batch signal was emitted. -/
theorem deliver_log (r : RootInfo) (d : Delivery) :
    ∃ new : List Effect, (deliver r d).log = r.log ++ new
      ∧ (deliver r d).isFirstBatch = (r.isFirstBatch && new.all (fun e => !e.isBatchSignal)) := by
  cases d with
  | results children token =>
    simp only [deliver, handleTraversalResults]
    have h := handleTraversalResultsLoop_log children r [] []
    generalize handleTraversalResultsLoop children r [] [] = res at h
    obtain ⟨r', sortInfos, infos⟩ := res
    simp only at h
    split_ifs
    · exact ⟨[Effect.iteratorAddFiles token sortInfos infos r'.isFirstBatch],
        by simp [RootInfo.emit, h.1], by simp [RootInfo.emit, Effect.isBatchSignal]⟩
    · exact ⟨[], by simp [h.1], by simp [h.2]⟩
  | resultsUpdate children token =>
    simp only [deliver, handleTraversalResultsUpdate]
    split_ifs
    · exact ⟨[], by simp, by simp⟩
    · exact ⟨[Effect.iteratorUpdateFiles token children r.isFirstBatch],
        by simp [RootInfo.emit], by simp [RootInfo.emit, Effect.isBatchSignal]⟩
  | localResult children role order mix token =>
    simp only [deliver, handleTraversalLocalResult]
    split_ifs
    · exact ⟨[], by simp, by simp⟩
    · have h := addChildren_SortInfoPointer_log children
        { r with originSortRole := role, originSortOrder := order, originMixSort := mix }
      generalize addChildren_SortInfoPointer
        { r with originSortRole := role, originSortOrder := order, originMixSort := mix }
        children = X at h ⊢
      exact ⟨[Effect.iteratorLocalFiles token children X.originSortRole X.originSortOrder
          X.originMixSort X.isFirstBatch],
        by simp [RootInfo.emit, h.1], by simp [RootInfo.emit, Effect.isBatchSignal]⟩

/-- A sequence of deliveries appends to the log; `isFirstBatch` survives
exactly when none of them emitted a batch signal. -/
theorem deliveries_log (ds : List Delivery) (r : RootInfo) :
    ∃ new : List Effect, (ds.foldl deliver r).log = r.log ++ new
      ∧ (ds.foldl deliver r).isFirstBatch
          = (r.isFirstBatch && new.all (fun e => !e.isBatchSignal)) := by
  induction ds generalizing r with
  | nil => exact ⟨[], by simp, by simp⟩
  | cons d ds ih =>
    obtain ⟨n₁, h₁, f₁⟩ := deliver_log r d
    obtain ⟨n₂, h₂, f₂⟩ := ih (deliver r d)
    refine ⟨n₁ ++ n₂, ?_, ?_⟩
    · rw [List.foldl_cons, h₂, h₁, List.append_assoc]
    · rw [List.foldl_cons, f₂, f₁, List.all_append, Bool.and_assoc]

/-- C10. Empty-result flag: after `setFirstBatch(true)` and any sequence of
traversal deliveries, `handleTraversalFinish(token)` emits
`traversalFinished(token, flag)` where `flag` is true exactly when none of the
log entries added by the deliveries is a batch signal; with no delivery at all
the log gains `traversalFinished(token, true)` and nothing else. -/
theorem traversalFinished_flag (r : RootInfo) (ds : List Delivery) (token : String) :
    (handleTraversalFinish (ds.foldl deliver (setFirstBatch r true)) token).log
        = (ds.foldl deliver (setFirstBatch r true)).log ++
            [Effect.traversalFinished token
              (((ds.foldl deliver (setFirstBatch r true)).log.drop r.log.length).all
                (fun e => !e.isBatchSignal))]
      ∧ (handleTraversalFinish (setFirstBatch r true) token).log
          = r.log ++ [Effect.traversalFinished token true] := by
  obtain ⟨new, hl, hf⟩ := deliveries_log ds (setFirstBatch r true)
  have hlog : (setFirstBatch r true).log = r.log := rfl
  have hfirst : (setFirstBatch r true).isFirstBatch = true := rfl
  constructor
  · rw [hfirst, Bool.true_and] at hf
    rw [hl, hlog, List.drop_left, ← hf]
    simp only [handleTraversalFinish, RootInfo.emit]
    split_ifs <;> simp [hl, hlog]
  · simp only [handleTraversalFinish, RootInfo.emit, setFirstBatch]
    split_ifs <;> rfl

/-! ## Snapshot invariants at their failing inputs -/

/-- C4 at its failing input: on an empty, aligned snapshot
`handleTraversalResultsUpdate` with one record replaces `sourceDataList` and
leaves `childrenUrlList` empty, so the two lists differ in length. -/
theorem handleTraversalResultsUpdate_breaks_alignment :
    Aligned (RootInfo.idle dirD)
      ∧ (handleTraversalResultsUpdate (RootInfo.idle dirD) [recordOf fileA] "key").childrenUrlList
          = []
      ∧ (handleTraversalResultsUpdate (RootInfo.idle dirD) [recordOf fileA] "key").sourceDataList
          = [recordOf fileA]
      ∧ ¬ Aligned (handleTraversalResultsUpdate (RootInfo.idle dirD) [recordOf fileA] "key") := by
  decide

/-- C5 at its failing input: after `a.txt` was delivered once,
`addChildren(const QList<SortInfoPointer> &)` with its record again leaves the
identity twice in `childrenUrlList`; so does one `handleTraversalLocalResult`
whose list repeats the record. -/
theorem addChildren_SortInfoPointer_duplicates :
    (handleTraversalLocalResult (RootInfo.idle dirD) [recordOf fileA]
        SortRoleCompareFlag.kSortRoleCompareFileName SortOrder.AscendingOrder false
        "key").childrenUrlList = [fileA]
      ∧ (addChildren_SortInfoPointer
          (handleTraversalLocalResult (RootInfo.idle dirD) [recordOf fileA]
            SortRoleCompareFlag.kSortRoleCompareFileName SortOrder.AscendingOrder false "key")
          [recordOf fileA]).childrenUrlList = [fileA, fileA]
      ∧ (handleTraversalLocalResult (RootInfo.idle dirD) [recordOf fileA, recordOf fileA]
          SortRoleCompareFlag.kSortRoleCompareFileName SortOrder.AscendingOrder false
          "key").childrenUrlList = [fileA, fileA] := by
  decide

/-- C8 at its failing inputs: with an add of `a.txt` pending when the root is
deleted, the run returns with `a.txt` in the snapshot; with a remove of `a.txt`
pending, `removeChildren` runs and `watcherRemoveFiles` is emitted after
`requestClearRoot`. -/
theorem root_delete_then_final_flush :
    (doWatcherEvent localFiles [Tick.quiet 0, Tick.quiet 0]
        { RootInfo.idle dirD with
          watcherEvent := [⟨fileA, EventType.kAddFile⟩, ⟨dirD, EventType.kRmFile⟩] }).map
        (fun r => r.childrenUrlList) = some [fileA]
      ∧ (doWatcherEvent localFiles [Tick.quiet 0, Tick.quiet 0]
        { RootInfo.idle dirD with
          watcherEvent := [⟨fileA, EventType.kRmFile⟩, ⟨dirD, EventType.kRmFile⟩] }).map
        (fun r => r.log) =
          some [Effect.removeCacheFileInfo [dirD], Effect.removeCacheWatcherByParent dirD,
            Effect.requestCloseTab dirD, Effect.requestClearRoot dirD,
            Effect.callRemoveChildren [fileA], Effect.removeCacheFileInfo [fileA],
            Effect.removeCacheWatcherByParent fileA, Effect.requestCloseTab fileA,
            Effect.removeCacheFileInfo [fileA], Effect.watcherRemoveFiles [recordOf fileA]] := by
  decide

/-! ## Rename -/

/-- What `dofileMoved` leaves in the queue. -/
theorem dofileMoved_queue (c : Collaborators) (r : RootInfo) (fromUrl toUrl : QUrl) :
    (dofileMoved c r fromUrl toUrl).watcherEvent =
      r.watcherEvent ++ [⟨fromUrl, EventType.kRmFile⟩, ⟨toUrl, EventType.kAddFile⟩] := by
  simp only [dofileMoved, doFileDeleted, dofileCreated, enqueueEvent, RootInfo.emit]
  split_ifs <;> simp

/-- The members `dofileMoved` leaves alone. -/
theorem dofileMoved_frame (c : Collaborators) (r : RootInfo) (fromUrl toUrl : QUrl) :
    (dofileMoved c r fromUrl toUrl).url = r.url
      ∧ (dofileMoved c r fromUrl toUrl).cancelWatcherEvent = r.cancelWatcherEvent
      ∧ (dofileMoved c r fromUrl toUrl).processFileEventRuning = r.processFileEventRuning := by
  simp only [dofileMoved, doFileDeleted, dofileCreated, enqueueEvent, RootInfo.emit]
  split_ifs <;> simp

/-- A rename, as a run: for distinct valid identities `a` and `b`, neither the
root, `dofileMoved(a, b)` appends `Remove(a)` then `Add(b)` to the queue; merged
from empty working lists they give `removes = [a]`, `adds = [b]`,
`updates = []`; and a run that drains them in one window is `removeChildren`
on `[a]` followed by `addChildren` on `[b]`. -/
theorem dofileMoved_run (c : Collaborators) (r : RootInfo) (a b : QUrl) (hab : a ≠ b)
    (hva : c.isValid a = true) (hvb : c.isValid b = true)
    (hra : c.urlEquals a r.url = false) (hrb : c.urlEquals b r.url = false) :
    (dofileMoved c r a b).watcherEvent =
        r.watcherEvent ++ [⟨a, EventType.kRmFile⟩, ⟨b, EventType.kAddFile⟩]
      ∧ ([⟨a, EventType.kRmFile⟩, ⟨b, EventType.kAddFile⟩] : List Event).foldl mergeEvent Work.init
          = { Work.init with adds := [b], removes := [a] }
      ∧ ∀ (t₁ t₂ tEnd : Tick), t₁.calm → t₂.calm → tEnd.arrivals = [] → 200 ≤ tEnd.elapsedCond →
          r.watcherEvent = [] → r.cancelWatcherEvent = false →
          r.processFileEventRuning = false →
          doWatcherEvent c [t₁, t₂, tEnd] (dofileMoved c r a b) =
            some (addChildren c
              (removeChildren c
                { dofileMoved c r a b with watcherEvent := [], processFileEventRuning := false }
                [a])
              [b]) := by
  have hm : ([⟨a, EventType.kRmFile⟩, ⟨b, EventType.kAddFile⟩] : List Event).foldl mergeEvent
      Work.init = { Work.init with adds := [b], removes := [a] } := by
    have : (b == a) = false := by simpa using Ne.symm hab
    simp [mergeEvent, Work.init, removeOne, List.erase_cons, this, hab]
  refine ⟨dofileMoved_queue c r a b, hm, ?_⟩
  intro t₁ t₂ tEnd h₁ h₂ ha he hq hc hp
  obtain ⟨fu, fc, fp⟩ := dofileMoved_frame c r a b
  have hq' : (dofileMoved c r a b).watcherEvent
      = [⟨a, EventType.kRmFile⟩, ⟨b, EventType.kAddFile⟩] := by
    rw [dofileMoved_queue, hq]; rfl
  generalize dofileMoved c r a b = m at fu fc fp hq' ⊢
  have hit := iterations_merge c _ [t₁, t₂] { m with processFileEventRuning := true } Work.init
    (by simp) (by simp [h₁, h₂]) (by simpa [fc] using hc) hq'
    (by simp [hva, hvb, fu, hra, hrb]) rfl rfl
  rw [hm] at hit
  have hrun : iterations c ([t₁, t₂] ++ [tEnd]) { m with processFileEventRuning := true } Work.init
      = (Flow.leave, { m with processFileEventRuning := true, watcherEvent := [] },
          { Work.init with adds := [b], removes := [a] }) := by
    rw [iterations_append, hit]
    simp only [iterations]
    rw [loopIteration_window_over c tEnd _ _ ha rfl he]
  have := doWatcherEvent_of_leave c _ m _ _ (by rw [fp, hp]) hrun
  simp only [List.cons_append, List.nil_append] at this
  rw [this]
  simp [finalFlush, Work.init]

/-- The rename of `a.txt` to `b.txt`, traced: one `watcherRemoveFiles` for
`a.txt`, then one `watcherAddFiles` for `b.txt`, and no `watcherUpdateFiles`. -/
theorem rename_trace :
    (doWatcherEvent localFiles [Tick.quiet 0, Tick.quiet 10, Tick.quiet 200]
        (dofileMoved localFiles (RootInfo.idle dirD) fileA fileB)).map (fun r => r.log) =
      some [Effect.renameFileProcessStarted, Effect.invokeDoThreadWatcherEvent,
        Effect.invokeDoThreadWatcherEvent,
        Effect.callRemoveChildren [fileA], Effect.removeCacheFileInfo [fileA],
        Effect.removeCacheWatcherByParent fileA, Effect.requestCloseTab fileA,
        Effect.removeCacheFileInfo [fileA], Effect.watcherRemoveFiles [recordOf fileA],
        Effect.callAddChildren [fileB], Effect.watcherAddFiles [recordOf fileB]] := by
  decide

/-! ## The mutators that do keep the snapshot invariants -/

/-- An operation that leaves both lists alone keeps the snapshot invariants. -/
theorem SnapshotKept.of_unchanged {r r' : RootInfo} (hc : r'.childrenUrlList = r.childrenUrlList)
    (hs : r'.sourceDataList = r.sourceDataList) : SnapshotKept r r' := by
  unfold SnapshotKept Aligned
  rw [hc, hs]
  exact ⟨id, id⟩

/-- Two operations in a row keep the snapshot invariants when each does. -/
theorem SnapshotKept.then_kept {r₁ r₂ r₃ : RootInfo} (h₁ : SnapshotKept r₁ r₂)
    (h₂ : SnapshotKept r₂ r₃) : SnapshotKept r₁ r₃ :=
  ⟨fun h => h₂.1 (h₁.1 h), fun h => h₂.2 (h₁.2 h)⟩

/-- Emitting a signal keeps the snapshot invariants. -/
theorem SnapshotKept.after_emit (r : RootInfo) (e : Effect) : SnapshotKept r (r.emit e) :=
  SnapshotKept.of_unchanged rfl rfl

/-- Writing an identity at the index of its first occurrence changes nothing. -/
theorem set_indexOf_self (l : List QUrl) (u : QUrl) : l.set (l.indexOf u) u = l := by
  induction l with
  | nil => rfl
  | cons a l ih =>
    by_cases h : a = u
    · subst h; simp
    · have h' : (a == u) = false := by simpa using h
      rw [List.indexOf_cons, h']
      simp [ih]

/-- Mapping commutes with the removal of an index. -/
theorem map_eraseIdx {α β : Type} (f : α → β) (l : List α) (i : Nat) :
    (l.eraseIdx i).map f = (l.map f).eraseIdx i := by
  induction l generalizing i with
  | nil => rfl
  | cons a l ih =>
    cases i with
    | zero => rfl
    | succ i => simp [List.eraseIdx, ih]

/-- Replacing the record at the index of its own identity keeps alignment. -/
theorem aligned_replace (cul : List QUrl) (sdl : List SortInfoPointer) (s : SortFileInfo)
    (u : QUrl) (h : sdl.map (fun p => p.map SortFileInfo.url) = cul.map some)
    (hs : s.url = u) (hm : u ∈ cul) :
    (replace sdl (indexOf cul u) (some s)).map (fun p => p.map SortFileInfo.url)
      = cul.map some := by
  subst hs
  have hi : indexOf cul s.url = (cul.indexOf s.url : Int) := by simp [indexOf, hm]
  rw [hi, replace, if_pos (Int.ofNat_nonneg _), Int.toNat_ofNat, List.map_set, h]
  have : (Option.map SortFileInfo.url (some s)) = some s.url := rfl
  rw [this, ← List.map_set, set_indexOf_self]

/-- `addChild` keeps the snapshot invariants. -/
theorem addChild_kept (r : RootInfo) (child : FileInfoPointer) :
    SnapshotKept r (addChild r child).2 := by
  cases child with
  | none => exact SnapshotKept.of_unchanged rfl rfl
  | some info =>
    simp only [addChild, sortFileInfo, QUrl.setPathPath]
    split_ifs with hm
    · refine ⟨fun h => ?_, fun h => h⟩
      exact aligned_replace r.childrenUrlList r.sourceDataList _ _ h rfl hm
    · refine ⟨fun h => ?_, fun h => ?_⟩
      · unfold Aligned at h ⊢
        simp [h]
      · exact List.Nodup.append h (by simp) (by simpa using hm)

/-- The loop of `addChildren(const QList<QUrl> &)` keeps the snapshot
invariants. -/
theorem addChildrenLoop_kept (c : Collaborators) (urlList : List QUrl) (r : RootInfo)
    (newSortInfo : List SortInfoPointer) (hasHiddenFile : Bool) :
    SnapshotKept r (addChildrenLoop c urlList r newSortInfo hasHiddenFile).1 := by
  induction urlList generalizing r newSortInfo hasHiddenFile with
  | nil => exact SnapshotKept.of_unchanged rfl rfl
  | cons url rest ih =>
    rw [addChildrenLoop]
    simp only
    cases fileInfo c r url.setPathPath with
    | none => exact ih _ _ _
    | some child =>
      simp only
      have h := addChild_kept r (some child)
      generalize addChild r (some child) = res at h
      obtain ⟨s, r'⟩ := res
      cases s with
      | none => exact h.then_kept (ih _ _ _)
      | some s => exact h.then_kept (ih _ _ _)

/-- `addChildren(const QList<QUrl> &)` keeps the snapshot invariants. -/
theorem addChildren_kept (c : Collaborators) (r : RootInfo) (urlList : List QUrl) :
    SnapshotKept r (addChildren c r urlList) := by
  unfold addChildren
  simp only
  have h := addChildrenLoop_kept c urlList (r.emit (Effect.callAddChildren urlList)) [] false
  generalize addChildrenLoop c urlList (r.emit (Effect.callAddChildren urlList)) [] false
    = res at h
  obtain ⟨r', newSortInfo, hasHiddenFile⟩ := res
  refine (SnapshotKept.after_emit r _).then_kept (h.then_kept ?_)
  simp only
  split_ifs <;> exact SnapshotKept.of_unchanged rfl rfl

/-- `addChildren(const QList<FileInfoPointer> &)` keeps the snapshot
invariants. -/
theorem addChildren_FileInfoPointer_kept (r : RootInfo) (children : List FileInfoPointer) :
    SnapshotKept r (addChildren_FileInfoPointer r children) := by
  unfold addChildren_FileInfoPointer
  induction children generalizing r with
  | nil => exact SnapshotKept.of_unchanged rfl rfl
  | cons child rest ih => exact (addChild_kept r child).then_kept (ih _)

/-- `addChildren(const QList<SortInfoPointer> &)` keeps alignment. -/
theorem addChildren_SortInfoPointer_aligned (r : RootInfo) (children : List SortInfoPointer)
    (h : Aligned r) : Aligned (addChildren_SortInfoPointer r children) := by
  unfold addChildren_SortInfoPointer
  induction children generalizing r with
  | nil => exact h
  | cons f rest ih =>
    rw [List.foldl_cons]
    cases f with
    | none => exact ih r h
    | some f =>
      apply ih
      unfold Aligned at h ⊢
      simp [h]

/-- The loop of `removeChildren` keeps the snapshot invariants. -/
theorem removeChildrenLoop_kept (c : Collaborators) (urlList : List QUrl) (r : RootInfo)
    (removed : List SortInfoPointer) (removeUrls : List QUrl) :
    SnapshotKept r (removeChildrenLoop c urlList r removed removeUrls).1 := by
  induction urlList generalizing r removed removeUrls with
  | nil => exact SnapshotKept.of_unchanged rfl rfl
  | cons url rest ih =>
    rw [removeChildrenLoop]
    simp only
    have he : SnapshotKept r
        ((r.emit (Effect.removeCacheWatcherByParent url)).emit (Effect.requestCloseTab url)) :=
      SnapshotKept.of_unchanged rfl rfl
    generalize (r.emit (Effect.removeCacheWatcherByParent url)).emit (Effect.requestCloseTab url)
      = r₁ at he
    cases fileInfo c r₁ url.setPathPath with
    | none => exact he.then_kept (ih _ _ _)
    | some child =>
      simp only
      split_ifs
      · exact he.then_kept (ih _ _ _)
      · refine he.then_kept (SnapshotKept.then_kept ⟨fun h => ?_, fun h => ?_⟩ (ih _ _ _))
        · unfold Aligned at h ⊢
          simp only [takeAt, removeAt]
          rw [map_eraseIdx, map_eraseIdx, h]
        · exact List.Nodup.eraseIdx _ h

/-- `removeChildren` keeps the snapshot invariants. -/
theorem removeChildren_kept (c : Collaborators) (r : RootInfo) (urlList : List QUrl) :
    SnapshotKept r (removeChildren c r urlList) := by
  unfold removeChildren
  simp only
  have h := removeChildrenLoop_kept c urlList
    ((r.emit (Effect.callRemoveChildren urlList)).emit (Effect.removeCacheFileInfo urlList)) [] []
  generalize removeChildrenLoop c urlList
    ((r.emit (Effect.callRemoveChildren urlList)).emit (Effect.removeCacheFileInfo urlList)) [] []
    = res at h
  obtain ⟨r', removed, removeUrls⟩ := res
  refine SnapshotKept.then_kept (SnapshotKept.of_unchanged rfl rfl) (h.then_kept ?_)
  simp only
  split_ifs <;> exact SnapshotKept.of_unchanged rfl rfl

/-- `updateChild` keeps the snapshot invariants. -/
theorem updateChild_kept (c : Collaborators) (r : RootInfo) (url : QUrl) :
    SnapshotKept r (updateChild c r url).2 := by
  unfold updateChild
  cases fileInfo c r url with
  | none => exact SnapshotKept.of_unchanged rfl rfl
  | some info =>
    simp only [sortFileInfo]
    split_ifs with hm hu
    · refine ⟨fun h => ?_, fun h => h⟩
      unfold Aligned at h ⊢
      dsimp only [RootInfo.emit]
      exact aligned_replace _ _ _ _ h rfl hm
    · refine ⟨fun h => ?_, fun h => h⟩
      unfold Aligned at h ⊢
      dsimp only
      exact aligned_replace _ _ _ _ h rfl hm
    · exact SnapshotKept.of_unchanged rfl rfl

/-- The loop of `updateChildren` keeps the snapshot invariants. -/
theorem updateChildrenLoop_kept (c : Collaborators) (urls : List QUrl) (r : RootInfo)
    (updates : List SortInfoPointer) :
    SnapshotKept r (updateChildrenLoop c urls r updates).1 := by
  induction urls generalizing r updates with
  | nil => exact SnapshotKept.of_unchanged rfl rfl
  | cons url rest ih =>
    rw [updateChildrenLoop]
    have h := updateChild_kept c r url
    generalize updateChild c r url = res at h
    obtain ⟨s, r'⟩ := res
    cases s with
    | none => exact h.then_kept (ih _ _)
    | some s => exact h.then_kept (ih _ _)

/-- `updateChildren` keeps the snapshot invariants. -/
theorem updateChildren_kept (c : Collaborators) (r : RootInfo) (urls : List QUrl) :
    SnapshotKept r (updateChildren c r urls) := by
  unfold updateChildren
  simp only
  have h := updateChildrenLoop_kept c urls (r.emit (Effect.callUpdateChildren urls)) []
  generalize updateChildrenLoop c urls (r.emit (Effect.callUpdateChildren urls)) [] = res at h
  obtain ⟨r', updates⟩ := res
  refine (SnapshotKept.after_emit r _).then_kept (h.then_kept ?_)
  simp only
  split_ifs <;> exact SnapshotKept.of_unchanged rfl rfl

/-- The loop of `handleTraversalResults` keeps the snapshot invariants. -/
theorem handleTraversalResultsLoop_kept (children : List FileInfoPointer) (r : RootInfo)
    (sortInfos : List SortInfoPointer) (infos : List FileInfoPointer) :
    SnapshotKept r (handleTraversalResultsLoop children r sortInfos infos).1 := by
  induction children generalizing r sortInfos infos with
  | nil => exact SnapshotKept.of_unchanged rfl rfl
  | cons info rest ih =>
    rw [handleTraversalResultsLoop]
    have h := addChild_kept r info
    generalize addChild r info = res at h
    obtain ⟨s, r'⟩ := res
    cases s with
    | none => exact h.then_kept (ih _ _ _)
    | some s => exact h.then_kept (ih _ _ _)

/-- `handleTraversalResults` keeps the snapshot invariants. -/
theorem handleTraversalResults_kept (r : RootInfo) (children : List FileInfoPointer)
    (travseToken : String) : SnapshotKept r (handleTraversalResults r children travseToken) := by
  unfold handleTraversalResults
  have h := handleTraversalResultsLoop_kept children r [] []
  generalize handleTraversalResultsLoop children r [] [] = res at h
  obtain ⟨r', sortInfos, infos⟩ := res
  refine h.then_kept ?_
  simp only
  split_ifs <;> exact SnapshotKept.of_unchanged rfl rfl

/-- `handleTraversalLocalResult` keeps alignment. -/
theorem handleTraversalLocalResult_aligned (r : RootInfo) (children : List SortInfoPointer)
    (sortRole : SortRoleCompareFlag) (sortOrder : SortOrder) (isMixDirAndFile : Bool)
    (travseToken : String) (h : Aligned r) :
    Aligned (handleTraversalLocalResult r children sortRole sortOrder isMixDirAndFile
      travseToken) := by
  unfold handleTraversalLocalResult
  simp only
  split_ifs
  · exact h
  · exact addChildren_SortInfoPointer_aligned _ children h

/-- `startWork` keeps the snapshot invariants. -/
theorem startWork_kept (c : Collaborators) (r : RootInfo) (key : String) (getCache : Bool) :
    SnapshotKept r (startWork c r key getCache) := by
  unfold startWork
  split_ifs
  · exact SnapshotKept.of_unchanged rfl rfl
  · simp only [handleGetSourceData, startWatcher, RootInfo.emit]
    split_ifs <;> exact SnapshotKept.of_unchanged rfl rfl
  · exact ⟨fun _ => rfl, fun _ => List.nodup_nil⟩

/-- `reset` keeps the snapshot invariants. -/
theorem reset_kept (r : RootInfo) : SnapshotKept r (reset r) :=
  ⟨fun _ => rfl, fun _ => List.nodup_nil⟩

/-- The root-delete branch keeps the snapshot invariants. -/
theorem clearRoot_kept (r : RootInfo) (fileUrl : QUrl) : SnapshotKept r (clearRoot r fileUrl) :=
  ⟨fun _ => rfl, fun _ => List.nodup_nil⟩

/-- The periodic flush keeps the snapshot invariants. -/
theorem periodicFlush_kept (c : Collaborators) (t : Tick) (r : RootInfo) (w : Work) :
    SnapshotKept r (periodicFlush c t r w).1 := by
  have refl : ∀ x : RootInfo, SnapshotKept x x := fun x => SnapshotKept.of_unchanged rfl rfl
  unfold periodicFlush
  simp only
  have h₁ : SnapshotKept r (if (!w.adds.isEmpty) = true then addChildren c r w.adds
      else r) := by
    split_ifs
    · exact addChildren_kept _ _ _
    · exact refl _
  generalize (if (!w.adds.isEmpty) = true then addChildren c r w.adds else r) = r₁ at h₁
  have h₂ : SnapshotKept r₁ (if (!w.updates.isEmpty) = true then updateChildren c r₁ w.updates
      else r₁) := by
    split_ifs
    · exact updateChildren_kept _ _ _
    · exact refl _
  generalize (if (!w.updates.isEmpty) = true then updateChildren c r₁ w.updates else r₁) = r₂
    at h₂
  refine h₁.then_kept (h₂.then_kept ?_)
  split_ifs
  · exact removeChildren_kept _ _ _
  · exact refl _

/-- The final flush keeps the snapshot invariants. -/
theorem finalFlush_kept (c : Collaborators) (r : RootInfo) (w : Work) :
    SnapshotKept r (finalFlush c r w) := by
  have refl : ∀ x : RootInfo, SnapshotKept x x := fun x => SnapshotKept.of_unchanged rfl rfl
  have h₀ : SnapshotKept r { r with processFileEventRuning := false } :=
    SnapshotKept.of_unchanged rfl rfl
  unfold finalFlush
  simp only
  generalize ({ r with processFileEventRuning := false } : RootInfo) = r₀ at h₀
  have h₁ : SnapshotKept r₀ (if (!w.removes.isEmpty) = true then removeChildren c r₀ w.removes
      else r₀) := by
    split_ifs
    · exact removeChildren_kept _ _ _
    · exact refl _
  generalize (if (!w.removes.isEmpty) = true then removeChildren c r₀ w.removes else r₀) = r₁
    at h₁
  have h₂ : SnapshotKept r₁ (if (!w.adds.isEmpty) = true then addChildren c r₁ w.adds
      else r₁) := by
    split_ifs
    · exact addChildren_kept _ _ _
    · exact refl _
  generalize (if (!w.adds.isEmpty) = true then addChildren c r₁ w.adds else r₁) = r₂ at h₂
  refine h₀.then_kept (h₁.then_kept (h₂.then_kept ?_))
  split_ifs
  · exact updateChildren_kept _ _ _
  · exact refl _

/-- Events enqueued by other threads leave the snapshot alone. -/
theorem enqueueAll_kept (r : RootInfo) (es : List Event) : SnapshotKept r (enqueueAll r es) := by
  unfold enqueueAll
  induction es generalizing r with
  | nil => exact SnapshotKept.of_unchanged rfl rfl
  | cons e es ih =>
    rw [List.foldl_cons]
    have h : SnapshotKept r (enqueueEvent r e) := SnapshotKept.of_unchanged rfl rfl
    exact h.then_kept (ih _)

/-- Setting `cancelWatcherEvent` leaves the snapshot alone. -/
theorem observeCancel_kept (r : RootInfo) (flag : Bool) : SnapshotKept r (observeCancel r flag) := by
  unfold observeCancel
  split_ifs <;> exact SnapshotKept.of_unchanged rfl rfl

/-- Taking an event off the queue leaves the snapshot alone. -/
theorem dequeueEvent_kept (r : RootInfo) : SnapshotKept r (dequeueEvent r).2 := by
  unfold dequeueEvent
  cases r.watcherEvent <;> exact SnapshotKept.of_unchanged rfl rfl

/-- One iteration of the loop keeps the snapshot invariants. -/
theorem loopIteration_kept (c : Collaborators) (t : Tick) (r : RootInfo) (w : Work) :
    SnapshotKept r (loopIteration c t r w).2.1 := by
  have h₁ : SnapshotKept r (enqueueAll r t.arrivals) := enqueueAll_kept r _
  have h₂ : SnapshotKept r
      (if t.elapsedCheck - w.oldtime ≥ 200 then periodicFlush c t (enqueueAll r t.arrivals) w
        else (enqueueAll r t.arrivals, w)).1 := by
    split_ifs
    · exact h₁.then_kept (periodicFlush_kept _ _ _ _)
    · exact h₁
  unfold loopIteration
  dsimp only
  generalize (if t.elapsedCheck - w.oldtime ≥ 200 then periodicFlush c t (enqueueAll r t.arrivals) w
        else (enqueueAll r t.arrivals, w)) = rw at h₂
  have h₃ := h₂.then_kept (observeCancel_kept rw.1 t.cancelA)
  have h₄ := h₃.then_kept (enqueueAll_kept _ t.lateArrivals)
  have h₅ := (h₄.then_kept (dequeueEvent_kept _)).then_kept (observeCancel_kept _ t.cancelB)
  split_ifs
  all_goals dsimp only
  all_goals first
    | with_reducible exact h₁
    | with_reducible exact h₃
    | with_reducible exact h₄
    | with_reducible exact h₅
    | with_reducible exact h₅.then_kept (clearRoot_kept _ _)
    | with_reducible exact h₅.then_kept (observeCancel_kept _ _)

/-- Any number of iterations keeps the snapshot invariants. -/
theorem iterations_kept (c : Collaborators) (ticks : List Tick) (r : RootInfo) (w : Work) :
    SnapshotKept r (iterations c ticks r w).2.1 := by
  induction ticks generalizing r w with
  | nil => exact SnapshotKept.of_unchanged rfl rfl
  | cons t ts ih =>
    have h := loopIteration_kept c t r w
    rw [iterations]
    generalize loopIteration c t r w = res at h
    obtain ⟨f, r', w'⟩ := res
    cases f
    · exact h.then_kept (ih _ _)
    · exact h
    · exact h

/-- A run of `doWatcherEvent` that returns keeps the snapshot invariants. -/
theorem doWatcherEvent_kept (c : Collaborators) (ticks : List Tick) (r r' : RootInfo)
    (h : doWatcherEvent c ticks r = some r') : SnapshotKept r r' := by
  unfold doWatcherEvent at h
  split_ifs at h
  · cases h; exact SnapshotKept.of_unchanged rfl rfl
  · have hk := iterations_kept c ticks { r with processFileEventRuning := true } Work.init
    have h₀ : SnapshotKept r { r with processFileEventRuning := true } :=
      SnapshotKept.of_unchanged rfl rfl
    simp only [runLoop] at h
    generalize iterations c ticks { r with processFileEventRuning := true } Work.init = res
      at h hk
    obtain ⟨f, r₁, w₁⟩ := res
    cases f
    · simp at h
    · simp only [Option.some.injEq] at h
      subst h
      exact h₀.then_kept (hk.then_kept (finalFlush_kept _ _ _))
    · simp only [Option.some.injEq] at h
      subst h
      exact h₀.then_kept hk

/-! ## The terminal signal and the order of the snapshot -/

/-- C11. Terminal-signal idempotence: `handleTraversalFinish(token)` leaves
`childrenUrlList` and `sourceDataList` as they were, and a second call in a
row changes no member of the object: the state is that of the first call,
with one more `traversalFinished(token, false)` in the log of emitted
signals. -/
theorem handleTraversalFinish_idempotent (r : RootInfo) (token : String) :
    (handleTraversalFinish r token).childrenUrlList = r.childrenUrlList
      ∧ (handleTraversalFinish r token).sourceDataList = r.sourceDataList
      ∧ handleTraversalFinish (handleTraversalFinish r token) token
          = (handleTraversalFinish r token).emit (Effect.traversalFinished token false)
      ∧ ({ handleTraversalFinish (handleTraversalFinish r token) token with log := [] } : RootInfo)
          = { handleTraversalFinish r token with log := [] } := by
  simp only [handleTraversalFinish, RootInfo.emit]
  split_ifs <;> simp

/-- The counterexample of C12: with the snapshot `[a.txt, b.txt, c.txt]`
delivered sorted by name, the created `0.txt` is appended at the end and the
sort role of the snapshot is reset to the default. -/
theorem addChildren_arrival_order :
    sortedByName.childrenUrlList = [fileA, fileB, fileC]
      ∧ sortedByName.originSortRole = SortRoleCompareFlag.kSortRoleCompareFileName
      ∧ (addChildren localFiles sortedByName [file0]).childrenUrlList
          = [fileA, fileB, fileC, file0]
      ∧ (addChildren localFiles sortedByName [file0]).childrenUrlList
          ≠ [file0, fileA, fileB, fileC]
      ∧ (addChildren localFiles sortedByName [file0]).originSortRole
          = SortRoleCompareFlag.kSortRoleCompareDefault := by
  decide

/-- `addChild` only appends to `childrenUrlList`. -/
theorem addChild_prefix (r : RootInfo) (child : FileInfoPointer) :
    r.childrenUrlList <+: (addChild r child).2.childrenUrlList := by
  cases child with
  | none => exact List.prefix_refl _
  | some info =>
    simp only [addChild, sortFileInfo]
    split_ifs
    · exact List.prefix_refl _
    · exact List.prefix_append _ _

/-- The loop of `addChildren(const QList<QUrl> &)` only appends to
`childrenUrlList`. -/
theorem addChildrenLoop_prefix (c : Collaborators) (urlList : List QUrl) (r : RootInfo)
    (newSortInfo : List SortInfoPointer) (hasHiddenFile : Bool) :
    r.childrenUrlList <+:
      (addChildrenLoop c urlList r newSortInfo hasHiddenFile).1.childrenUrlList := by
  induction urlList generalizing r newSortInfo hasHiddenFile with
  | nil => exact List.prefix_refl _
  | cons url rest ih =>
    rw [addChildrenLoop]
    simp only
    cases fileInfo c r url.setPathPath with
    | none => exact ih _ _ _
    | some child =>
      simp only
      have h := addChild_prefix r (some child)
      generalize addChild r (some child) = res at h
      obtain ⟨s, r'⟩ := res
      cases s with
      | none => exact h.trans (ih _ _ _)
      | some s => exact h.trans (ih _ _ _)

/-- The loop of `addChildren(const QList<QUrl> &)` on one URL that resolves to
an identity not yet in the snapshot. -/
theorem addChildrenLoop_single (c : Collaborators) (r : RootInfo) (url : QUrl) (info : FileInfo)
    (hi : fileInfo c r url = some info) (hm : info.url ∉ r.childrenUrlList) :
    addChildrenLoop c [url] r [] false =
      ({ r with childrenUrlList := r.childrenUrlList ++ [info.url]
                sourceDataList := r.sourceDataList ++ [sortFileInfo (some info)] },
        [sortFileInfo (some info)], c.urlEquals url r.hiddenFileUrl) := by
  simp only [addChildrenLoop, QUrl.setPathPath, hi, addChild, sortFileInfo, hm, if_false,
    List.nil_append]
  by_cases h : c.urlEquals url r.hiddenFileUrl = true <;> simp [h]

/-- C12, amended. `addChildren` keeps the snapshot's previous order and only
appends: the old `childrenUrlList` is a prefix of the new one; a created entry
whose identity is new is appended at the end of both lists, one
`watcherAddFiles` carrying its record is emitted, and `originSortRole` is reset
to `kSortRoleCompareDefault`. -/
theorem addChildren_appends (c : Collaborators) (r : RootInfo) :
    (∀ urlList : List QUrl, r.childrenUrlList <+: (addChildren c r urlList).childrenUrlList)
    ∧ ∀ (url : QUrl) (info : FileInfo), fileInfo c r url = some info →
        info.url ∉ r.childrenUrlList →
        (addChildren c r [url]).childrenUrlList = r.childrenUrlList ++ [info.url]
          ∧ (addChildren c r [url]).sourceDataList
              = r.sourceDataList ++ [sortFileInfo (some info)]
          ∧ (addChildren c r [url]).originSortRole = SortRoleCompareFlag.kSortRoleCompareDefault
          ∧ (addChildren c r [url]).log = r.log ++
              ([Effect.callAddChildren [url], Effect.watcherAddFiles [sortFileInfo (some info)]]
                ++ if c.urlEquals url r.hiddenFileUrl then
                    [Effect.watcherUpdateHideFile r.hiddenFileUrl] else []) := by
  constructor
  · intro urlList
    unfold addChildren
    simp only
    have h := addChildrenLoop_prefix c urlList (r.emit (Effect.callAddChildren urlList)) [] false
    generalize addChildrenLoop c urlList (r.emit (Effect.callAddChildren urlList)) [] false
      = res at h
    obtain ⟨r', newSortInfo, hasHiddenFile⟩ := res
    simp only
    split_ifs <;> exact h
  · intro url info hi hm
    have hl := addChildrenLoop_single c (r.emit (Effect.callAddChildren [url])) url info hi hm
    unfold addChildren
    simp only [hl]
    by_cases h : c.urlEquals url r.hiddenFileUrl = true <;> simp [h, RootInfo.emit, sortFileInfo]

/-- The witness of C12: `0.txt` created in the directory sorted by name. -/
theorem addChildren_appends_witness :
    fileInfo localFiles sortedByName file0 = localFiles.createFileInfo file0
      ∧ file0 ∉ sortedByName.childrenUrlList
      ∧ (addChildren localFiles sortedByName [file0]).childrenUrlList
          = sortedByName.childrenUrlList ++ [file0] :=
  ⟨by decide, by decide,
    ((addChildren_appends localFiles sortedByName).2 file0
      { url := file0, size := 0, isDir := false, isHidden := false, isSymLink := false
        isReadable := true, isWritable := true, isExecutable := false
        lastRead := 0, lastModified := 0, createTime := 0 }
      (by decide) (by decide)).1⟩

/-! ## Calls of the apply functions -/

/-- A step that changes neither the log nor the control members makes no call. -/
theorem Applied.of_frame {r r' : RootInfo} (hq : r'.watcherEvent = r.watcherEvent)
    (hc : r'.cancelWatcherEvent = r.cancelWatcherEvent)
    (hp : r'.processFileEventRuning = r.processFileEventRuning) (hu : r'.url = r.url)
    (hl : r'.log = r.log) : Applied r r' [] :=
  ⟨hq, hc, hp, hu, by rw [hl, List.append_nil]⟩

/-- Two steps in a row make the calls of the first followed by those of the
second. -/
theorem Applied.append {r₁ r₂ r₃ : RootInfo} {cs₁ cs₂ : List Effect} (h₁ : Applied r₁ r₂ cs₁)
    (h₂ : Applied r₂ r₃ cs₂) : Applied r₁ r₃ (cs₁ ++ cs₂) := by
  obtain ⟨q₁, c₁, p₁, u₁, l₁⟩ := h₁
  obtain ⟨q₂, c₂, p₂, u₂, l₂⟩ := h₂
  exact ⟨q₂.trans q₁, c₂.trans c₁, p₂.trans p₁, u₂.trans u₁, by rw [l₂, l₁, List.append_assoc]⟩

/-- A step without calls followed by a step with calls. -/
theorem Applied.after_silent {r₁ r₂ r₃ : RootInfo} {cs : List Effect} (h₁ : Applied r₁ r₂ [])
    (h₂ : Applied r₂ r₃ cs) : Applied r₁ r₃ cs := by
  simpa using h₁.append h₂

/-- A step with calls followed by a step without calls. -/
theorem Applied.before_silent {r₁ r₂ r₃ : RootInfo} {cs : List Effect} (h₁ : Applied r₁ r₂ cs)
    (h₂ : Applied r₂ r₃ []) : Applied r₁ r₃ cs := by
  simpa using h₁.append h₂

/-- Emitting a signal that is not a call marker makes no call. -/
theorem Applied.of_signal (r : RootInfo) (e : Effect) (he : e.isApplyCall = false) :
    Applied r (r.emit e) [] :=
  ⟨rfl, rfl, rfl, rfl, by simp [RootInfo.emit, applyCalls, List.filter_append, he]⟩

/-- Recording a call marker makes that call. -/
theorem Applied.of_marker (r : RootInfo) (e : Effect) (he : e.isApplyCall = true) :
    Applied r (r.emit e) [e] :=
  ⟨rfl, rfl, rfl, rfl, by simp [RootInfo.emit, applyCalls, List.filter_append, he]⟩

/-- `addChild` makes no call. -/
theorem addChild_applied (r : RootInfo) (child : FileInfoPointer) :
    Applied r (addChild r child).2 [] := by
  cases child with
  | none => exact Applied.of_frame rfl rfl rfl rfl rfl
  | some info =>
    simp only [addChild, sortFileInfo]
    split_ifs <;> exact Applied.of_frame rfl rfl rfl rfl rfl

/-- The loop of `addChildren(const QList<QUrl> &)` makes no call. -/
theorem addChildrenLoop_applied (c : Collaborators) (urlList : List QUrl) (r : RootInfo)
    (newSortInfo : List SortInfoPointer) (hasHiddenFile : Bool) :
    Applied r (addChildrenLoop c urlList r newSortInfo hasHiddenFile).1 [] := by
  induction urlList generalizing r newSortInfo hasHiddenFile with
  | nil => exact Applied.of_frame rfl rfl rfl rfl rfl
  | cons url rest ih =>
    rw [addChildrenLoop]
    simp only
    cases fileInfo c r url.setPathPath with
    | none => exact ih _ _ _
    | some child =>
      simp only
      have h := addChild_applied r (some child)
      generalize addChild r (some child) = res at h
      obtain ⟨s, r'⟩ := res
      cases s with
      | none => exact h.after_silent (ih _ _ _)
      | some s => exact h.after_silent (ih _ _ _)

/-- `addChildren(const QList<QUrl> &)` makes one call, its own. -/
theorem addChildren_applied (c : Collaborators) (r : RootInfo) (urlList : List QUrl) :
    Applied r (addChildren c r urlList) [Effect.callAddChildren urlList] := by
  unfold addChildren
  simp only
  have h := addChildrenLoop_applied c urlList (r.emit (Effect.callAddChildren urlList)) [] false
  generalize addChildrenLoop c urlList (r.emit (Effect.callAddChildren urlList)) [] false
    = res at h
  obtain ⟨r', newSortInfo, hasHiddenFile⟩ := res
  refine (Applied.of_marker r (Effect.callAddChildren urlList) rfl).before_silent
    (h.after_silent ?_)
  simp only
  have h₁ : Applied r'
      (if newSortInfo.length > 0 then
        ({ r' with originSortRole := SortRoleCompareFlag.kSortRoleCompareDefault }).emit
          (Effect.watcherAddFiles newSortInfo)
      else r') [] := by
    split_ifs
    · have h₀ : Applied r'
          { r' with originSortRole := SortRoleCompareFlag.kSortRoleCompareDefault } [] :=
        Applied.of_frame rfl rfl rfl rfl rfl
      exact h₀.after_silent (Applied.of_signal _ _ rfl)
    · exact Applied.of_frame rfl rfl rfl rfl rfl
  generalize (if newSortInfo.length > 0 then
        ({ r' with originSortRole := SortRoleCompareFlag.kSortRoleCompareDefault }).emit
          (Effect.watcherAddFiles newSortInfo)
      else r') = r₁ at h₁
  split_ifs
  · exact h₁.after_silent (Applied.of_signal _ _ rfl)
  · exact h₁

/-- The loop of `removeChildren` makes no call. -/
theorem removeChildrenLoop_applied (c : Collaborators) (urlList : List QUrl) (r : RootInfo)
    (removed : List SortInfoPointer) (removeUrls : List QUrl) :
    Applied r (removeChildrenLoop c urlList r removed removeUrls).1 [] := by
  induction urlList generalizing r removed removeUrls with
  | nil => exact Applied.of_frame rfl rfl rfl rfl rfl
  | cons url rest ih =>
    rw [removeChildrenLoop]
    simp only
    have he : Applied r
        ((r.emit (Effect.removeCacheWatcherByParent url)).emit (Effect.requestCloseTab url)) [] :=
      (Applied.of_signal r (Effect.removeCacheWatcherByParent url) rfl).after_silent
        (Applied.of_signal _ (Effect.requestCloseTab url) rfl)
    generalize (r.emit (Effect.removeCacheWatcherByParent url)).emit (Effect.requestCloseTab url)
      = r₁ at he
    cases fileInfo c r₁ url.setPathPath with
    | none => exact he.after_silent (ih _ _ _)
    | some child =>
      simp only
      split_ifs
      · exact he.after_silent (ih _ _ _)
      · have hs : Applied r₁
            { r₁ with
              childrenUrlList := removeAt r₁.childrenUrlList (indexOf r₁.childrenUrlList child.url)
              sourceDataList :=
                (takeAt r₁.sourceDataList (indexOf r₁.childrenUrlList child.url)).2 } [] :=
          Applied.of_frame rfl rfl rfl rfl rfl
        exact he.after_silent (hs.after_silent (ih _ _ _))

/-- `removeChildren` makes one call, its own. -/
theorem removeChildren_applied (c : Collaborators) (r : RootInfo) (urlList : List QUrl) :
    Applied r (removeChildren c r urlList) [Effect.callRemoveChildren urlList] := by
  unfold removeChildren
  simp only
  have h₀ : Applied r
      ((r.emit (Effect.callRemoveChildren urlList)).emit (Effect.removeCacheFileInfo urlList))
      [Effect.callRemoveChildren urlList] :=
    (Applied.of_marker r (Effect.callRemoveChildren urlList) rfl).before_silent
      (Applied.of_signal _ _ rfl)
  generalize (r.emit (Effect.callRemoveChildren urlList)).emit
    (Effect.removeCacheFileInfo urlList) = r₀ at h₀
  have h := removeChildrenLoop_applied c urlList r₀ [] []
  generalize removeChildrenLoop c urlList r₀ [] [] = res at h
  obtain ⟨r', removed, removeUrls⟩ := res
  refine h₀.before_silent (h.after_silent ?_)
  simp only
  have h₁ : Applied r'
      (if removeUrls.length > 0 then r'.emit (Effect.removeCacheFileInfo removeUrls) else r')
      [] := by
    split_ifs
    · exact Applied.of_signal _ _ rfl
    · exact Applied.of_frame rfl rfl rfl rfl rfl
  generalize (if removeUrls.length > 0 then r'.emit (Effect.removeCacheFileInfo removeUrls)
    else r') = r₁ at h₁
  have h₂ : Applied r₁
      (if removed.length > 0 then r₁.emit (Effect.watcherRemoveFiles removed) else r₁) [] := by
    split_ifs
    · exact Applied.of_signal _ _ rfl
    · exact Applied.of_frame rfl rfl rfl rfl rfl
  generalize (if removed.length > 0 then r₁.emit (Effect.watcherRemoveFiles removed) else r₁)
    = r₂ at h₂
  split_ifs
  · exact h₁.after_silent (h₂.after_silent (Applied.of_signal _ _ rfl))
  · exact h₁.after_silent h₂

/-- `updateChild` makes no call. -/
theorem updateChild_applied (c : Collaborators) (r : RootInfo) (url : QUrl) :
    Applied r (updateChild c r url).2 [] := by
  unfold updateChild
  cases fileInfo c r url with
  | none => exact Applied.of_frame rfl rfl rfl rfl rfl
  | some info =>
    simp only [sortFileInfo]
    split_ifs <;>
      exact ⟨rfl, rfl, rfl, rfl,
        by simp [RootInfo.emit, applyCalls, List.filter_append, Effect.isApplyCall]⟩

/-- The loop of `updateChildren` makes no call. -/
theorem updateChildrenLoop_applied (c : Collaborators) (urls : List QUrl) (r : RootInfo)
    (updates : List SortInfoPointer) :
    Applied r (updateChildrenLoop c urls r updates).1 [] := by
  induction urls generalizing r updates with
  | nil => exact Applied.of_frame rfl rfl rfl rfl rfl
  | cons url rest ih =>
    rw [updateChildrenLoop]
    have h := updateChild_applied c r url
    generalize updateChild c r url = res at h
    obtain ⟨s, r'⟩ := res
    cases s with
    | none => exact h.after_silent (ih _ _)
    | some s => exact h.after_silent (ih _ _)

/-- `updateChildren` makes one call, its own. -/
theorem updateChildren_applied (c : Collaborators) (r : RootInfo) (urls : List QUrl) :
    Applied r (updateChildren c r urls) [Effect.callUpdateChildren urls] := by
  unfold updateChildren
  simp only
  have h := updateChildrenLoop_applied c urls (r.emit (Effect.callUpdateChildren urls)) []
  generalize updateChildrenLoop c urls (r.emit (Effect.callUpdateChildren urls)) [] = res at h
  obtain ⟨r', updates⟩ := res
  refine (Applied.of_marker r (Effect.callUpdateChildren urls) rfl).before_silent
    (h.after_silent ?_)
  simp only
  split_ifs
  · exact Applied.of_frame rfl rfl rfl rfl rfl
  · exact Applied.of_signal _ _ rfl

/-- An apply function called on a list only when the list is not empty. -/
theorem guarded_applied (f : List QUrl → Effect) (g : RootInfo → List QUrl → RootInfo)
    (hg : ∀ r urls, Applied r (g r urls) [f urls]) (r : RootInfo) (urls : List QUrl) :
    Applied r (if (!urls.isEmpty) = true then g r urls else r) (flushCall f urls) := by
  unfold flushCall
  cases urls with
  | nil => exact Applied.of_frame rfl rfl rfl rfl rfl
  | cons u us => exact hg r (u :: us)

/-- The periodic flush calls `addChildren`, `updateChildren`, `removeChildren`,
in this order, each on its list when the list is not empty. -/
theorem periodicFlush_applied (c : Collaborators) (t : Tick) (r : RootInfo) (w : Work) :
    Applied r (periodicFlush c t r w).1
      (flushCall Effect.callAddChildren w.adds ++ flushCall Effect.callUpdateChildren w.updates
        ++ flushCall Effect.callRemoveChildren w.removes) := by
  unfold periodicFlush
  simp only
  have h₁ := guarded_applied Effect.callAddChildren (addChildren c) (addChildren_applied c) r w.adds
  generalize (if (!w.adds.isEmpty) = true then addChildren c r w.adds else r) = r₁ at h₁
  have h₂ := guarded_applied Effect.callUpdateChildren (updateChildren c)
    (updateChildren_applied c) r₁ w.updates
  generalize (if (!w.updates.isEmpty) = true then updateChildren c r₁ w.updates else r₁) = r₂
    at h₂
  have h₃ := guarded_applied Effect.callRemoveChildren (removeChildren c)
    (removeChildren_applied c) r₂ w.removes
  exact (h₁.append h₂).append h₃

/-- The final flush releases `processFileEventRuning` and calls
`removeChildren`, `addChildren`, `updateChildren`, in this order, each on its
list when the list is not empty. -/
theorem finalFlush_applied (c : Collaborators) (r : RootInfo) (w : Work) :
    Applied { r with processFileEventRuning := false } (finalFlush c r w)
      (flushCall Effect.callRemoveChildren w.removes ++ flushCall Effect.callAddChildren w.adds
        ++ flushCall Effect.callUpdateChildren w.updates) := by
  unfold finalFlush
  simp only
  generalize ({ r with processFileEventRuning := false } : RootInfo) = r₀
  have h₁ := guarded_applied Effect.callRemoveChildren (removeChildren c)
    (removeChildren_applied c) r₀ w.removes
  generalize (if (!w.removes.isEmpty) = true then removeChildren c r₀ w.removes else r₀) = r₁
    at h₁
  have h₂ := guarded_applied Effect.callAddChildren (addChildren c) (addChildren_applied c) r₁
    w.adds
  generalize (if (!w.adds.isEmpty) = true then addChildren c r₁ w.adds else r₁) = r₂ at h₂
  have h₃ := guarded_applied Effect.callUpdateChildren (updateChildren c)
    (updateChildren_applied c) r₂ w.updates
  exact (h₁.append h₂).append h₃

/-- The locals after a periodic flush. -/
theorem periodicFlush_work (c : Collaborators) (t : Tick) (r : RootInfo) (w : Work) :
    (periodicFlush c t r w).2 =
      { w with adds := [], updates := [], removes := [], oldtime := t.elapsedFlush } := rfl

/-- The identities handed to `addChildren` by two logs in a row. -/
theorem handedAdds_append (l₁ l₂ : List Effect) :
    handedAdds (l₁ ++ l₂) = handedAdds l₁ ++ handedAdds l₂ := by
  induction l₁ with
  | nil => rfl
  | cons e l ih => cases e <;> simp [handedAdds, ih]

/-- The identities handed to `updateChildren` by two logs in a row. -/
theorem handedUpdates_append (l₁ l₂ : List Effect) :
    handedUpdates (l₁ ++ l₂) = handedUpdates l₁ ++ handedUpdates l₂ := by
  induction l₁ with
  | nil => rfl
  | cons e l ih => cases e <;> simp [handedUpdates, ih]

/-- The identities handed to `removeChildren` by two logs in a row. -/
theorem handedRemoves_append (l₁ l₂ : List Effect) :
    handedRemoves (l₁ ++ l₂) = handedRemoves l₁ ++ handedRemoves l₂ := by
  induction l₁ with
  | nil => rfl
  | cons e l ih => cases e <;> simp [handedRemoves, ih]

/-- Only the call markers of a log hand identities over. -/
theorem handed_applyCalls (log : List Effect) :
    handedAdds (applyCalls log) = handedAdds log
      ∧ handedUpdates (applyCalls log) = handedUpdates log
      ∧ handedRemoves (applyCalls log) = handedRemoves log := by
  unfold applyCalls
  induction log with
  | nil => exact ⟨rfl, rfl, rfl⟩
  | cons e l ih =>
    obtain ⟨h₁, h₂, h₃⟩ := ih
    cases e <;>
      simp [List.filter_cons, Effect.isApplyCall, handedAdds, handedUpdates, handedRemoves,
        h₁, h₂, h₃]

/-- What a step hands over is what its calls hand over. -/
theorem Applied.handed {r r' : RootInfo} {cs : List Effect} (h : Applied r r' cs) :
    handedAdds r'.log = handedAdds r.log ++ handedAdds cs
      ∧ handedUpdates r'.log = handedUpdates r.log ++ handedUpdates cs
      ∧ handedRemoves r'.log = handedRemoves r.log ++ handedRemoves cs := by
  have hl := h.2.2.2.2
  have h₁ := handed_applyCalls r'.log
  have h₂ := handed_applyCalls r.log
  rw [hl] at h₁
  rw [handedAdds_append, handedUpdates_append, handedRemoves_append] at h₁
  rw [h₂.1, h₂.2.1, h₂.2.2] at h₁
  exact ⟨h₁.1.symm, h₁.2.1.symm, h₁.2.2.symm⟩

/-- What the calls of a flush hand over. -/
theorem handed_flushCall (urls : List QUrl) :
    handedAdds (flushCall Effect.callAddChildren urls) = urls
      ∧ handedUpdates (flushCall Effect.callAddChildren urls) = []
      ∧ handedRemoves (flushCall Effect.callAddChildren urls) = []
      ∧ handedAdds (flushCall Effect.callUpdateChildren urls) = []
      ∧ handedUpdates (flushCall Effect.callUpdateChildren urls) = urls
      ∧ handedRemoves (flushCall Effect.callUpdateChildren urls) = []
      ∧ handedAdds (flushCall Effect.callRemoveChildren urls) = []
      ∧ handedUpdates (flushCall Effect.callRemoveChildren urls) = []
      ∧ handedRemoves (flushCall Effect.callRemoveChildren urls) = urls := by
  cases urls <;> simp [flushCall, handedAdds, handedUpdates, handedRemoves]

/-! ## Retry budget and final flush -/

/-- One iteration on an empty queue, with no arrival and no cancellation:
either the loop is left, or the body sleeps once, counted by
`emptyLoopCount`, which was below 5. What is pending is either still pending
or was handed to the apply functions by the periodic flush. -/
theorem loopIteration_idle (c : Collaborators) (t : Tick) (r : RootInfo) (w : Work)
    (ht : t.undisturbed) (hc : r.cancelWatcherEvent = false) (hq : r.watcherEvent = []) :
    ∃ (f : Flow) (r' : RootInfo) (w' : Work) (cs : List Effect),
      loopIteration c t r w = (f, r', w') ∧ Applied r r' cs
        ∧ handedAdds cs ++ w'.adds = w.adds
        ∧ handedUpdates cs ++ w'.updates = w.updates
        ∧ handedRemoves cs ++ w'.removes = w.removes
        ∧ (f = Flow.leave
            ∨ (f = Flow.next ∧ w.emptyLoopCount < 5
                ∧ w'.emptyLoopCount = w.emptyLoopCount + 1)) := by
  obtain ⟨h₁, h₂, h₃, h₄, h₅⟩ := ht
  by_cases hcond : t.elapsedCond < 200
  · by_cases hfl : t.elapsedCheck - w.oldtime ≥ 200
    · have ha := periodicFlush_applied c t r w
      have hw := periodicFlush_work c t r w
      have hc₁ : (periodicFlush c t r w).1.cancelWatcherEvent = false := by rw [ha.2.1, hc]
      have hq₁ : (periodicFlush c t r w).1.watcherEvent = [] := by rw [ha.1, hq]
      obtain ⟨fa, fu, fr, -, -, -, -, -, -⟩ := handed_flushCall w.adds
      obtain ⟨-, -, -, ua, uu, ur, -, -, -⟩ := handed_flushCall w.updates
      obtain ⟨-, -, -, -, -, -, ra, ru, rr⟩ := handed_flushCall w.removes
      by_cases h5 : w.emptyLoopCount ≥ 5
      · refine ⟨Flow.leave, (periodicFlush c t r w).1, (periodicFlush c t r w).2, _, ?_, ha,
          ?_, ?_, ?_, Or.inl rfl⟩
        · unfold loopIteration
          simp [h₁, h₂, h₃, enqueueAll, checkFileEventQueue, hq, hcond, hfl, observeCancel,
            hc₁, hq₁, hw, h5]
        · simp [hw, handedAdds_append, fa, ua, ra]
        · simp [hw, handedUpdates_append, fu, uu, ru]
        · simp [hw, handedRemoves_append, fr, ur, rr]
      · refine ⟨Flow.next, (periodicFlush c t r w).1,
          { w with adds := [], updates := [], removes := [], oldtime := t.elapsedSleep
                   emptyLoopCount := w.emptyLoopCount + 1 }, _, ?_, ha,
          ?_, ?_, ?_, Or.inr ⟨rfl, not_le.1 h5, rfl⟩⟩
        · unfold loopIteration
          simp [h₁, h₂, h₃, enqueueAll, checkFileEventQueue, hq, hcond, hfl, observeCancel,
            hc₁, hq₁, hw, h5]
        · simp [handedAdds_append, fa, ua, ra]
        · simp [handedUpdates_append, fu, uu, ru]
        · simp [handedRemoves_append, fr, ur, rr]
    · by_cases h5 : w.emptyLoopCount ≥ 5
      · refine ⟨Flow.leave, r, w, [], ?_, Applied.of_frame rfl rfl rfl rfl rfl,
          rfl, rfl, rfl, Or.inl rfl⟩
        unfold loopIteration
        simp [h₁, h₂, h₃, enqueueAll, checkFileEventQueue, hq, hcond, hfl, observeCancel,
          hc, h5]
      · refine ⟨Flow.next, r,
          { (if w.adds.isEmpty && w.updates.isEmpty && w.removes.isEmpty
              then { w with oldtime := t.elapsedSleep } else w) with
            emptyLoopCount := w.emptyLoopCount + 1 }, [], ?_,
          Applied.of_frame rfl rfl rfl rfl rfl, ?_, ?_, ?_, Or.inr ⟨rfl, not_le.1 h5, rfl⟩⟩
        · unfold loopIteration
          simp [h₁, h₂, h₃, enqueueAll, checkFileEventQueue, hq, hcond, hfl, observeCancel,
            hc, h5]
          split_ifs <;> rfl
        · simp only [handedAdds, List.nil_append]; split_ifs <;> rfl
        · simp only [handedUpdates, List.nil_append]; split_ifs <;> rfl
        · simp only [handedRemoves, List.nil_append]; split_ifs <;> rfl
  · refine ⟨Flow.leave, r, w, [], ?_, Applied.of_frame rfl rfl rfl rfl rfl, rfl, rfl, rfl,
      Or.inl rfl⟩
    unfold loopIteration
    simp [h₁, enqueueAll, checkFileEventQueue, hq, hcond]

/-- On an empty queue, with no arrival and no cancellation, the loop is left
after at most `n` sleeps when `emptyLoopCount` is at least `5 - n`; what was
pending is still pending or was handed over by a periodic flush. -/
theorem iterations_idle (c : Collaborators) (n : Nat) :
    ∀ (ticks : List Tick) (r : RootInfo) (w : Work), (∀ t ∈ ticks, t.undisturbed) →
      r.cancelWatcherEvent = false → r.watcherEvent = [] → 5 - w.emptyLoopCount ≤ n →
      n + 1 ≤ ticks.length →
      ∃ (r' : RootInfo) (w' : Work) (cs : List Effect),
        iterations c (ticks.take (n + 1)) r w = (Flow.leave, r', w')
          ∧ iterations c ticks r w = (Flow.leave, r', w') ∧ Applied r r' cs
          ∧ handedAdds cs ++ w'.adds = w.adds
          ∧ handedUpdates cs ++ w'.updates = w.updates
          ∧ handedRemoves cs ++ w'.removes = w.removes := by
  induction n with
  | zero =>
    intro ticks r w ht hc hq hn hlen
    obtain _ | ⟨t, ts⟩ := ticks
    · simp at hlen
    · obtain ⟨f, r', w', cs, he, ha, h₁, h₂, h₃, hf⟩ :=
        loopIteration_idle c t r w (ht t (List.mem_cons_self _ _)) hc hq
      rcases hf with hf | ⟨-, hlt, -⟩
      · subst hf
        exact ⟨r', w', cs, by simp [iterations, he], by simp [iterations, he], ha, h₁, h₂, h₃⟩
      · omega
  | succ n ih =>
    intro ticks r w ht hc hq hn hlen
    obtain _ | ⟨t, ts⟩ := ticks
    · simp at hlen
    · obtain ⟨f, r', w', cs, he, ha, h₁, h₂, h₃, hf⟩ :=
        loopIteration_idle c t r w (ht t (List.mem_cons_self _ _)) hc hq
      rcases hf with hf | ⟨hf, -, hcount⟩
      · subst hf
        exact ⟨r', w', cs, by simp [iterations, he], by simp [iterations, he], ha, h₁, h₂, h₃⟩
      · subst hf
        obtain ⟨r'', w'', cs', e₁, e₂, ha', g₁, g₂, g₃⟩ :=
          ih ts r' w' (fun t' h' => ht t' (List.mem_cons_of_mem _ h')) (by rw [ha.2.1, hc])
            (by rw [ha.1, hq]) (by omega) (by simpa using hlen)
        refine ⟨r'', w'', cs ++ cs', ?_, ?_, ha.append ha', ?_, ?_, ?_⟩
        · rw [List.take_succ_cons, iterations, he]; exact e₁
        · rw [iterations, he]; exact e₂
        · rw [handedAdds_append, List.append_assoc, g₁, h₁]
        · rw [handedUpdates_append, List.append_assoc, g₂, h₂]
        · rw [handedRemoves_append, List.append_assoc, g₃, h₃]

/-- C14. Bounded retry then final flush: from the start of any iteration at
which the queue is empty, with no further arrival and no cancellation, the loop
is left within six evaluations of its condition, so after at most five sleeps;
the run then ends with the final flush, which calls `removeChildren`,
`addChildren`, `updateChildren` once each on the lists still pending, and over
the rest of the run every identity that was pending has been handed to its
apply function exactly as often as it was pending. -/
theorem doWatcherEvent_bounded_retry (c : Collaborators) (ticks : List Tick) (r : RootInfo)
    (w : Work) (ht : ∀ t ∈ ticks, t.undisturbed) (hc : r.cancelWatcherEvent = false)
    (hq : r.watcherEvent = []) (hn : 0 ≤ w.emptyLoopCount) (hlen : 6 ≤ ticks.length) :
    ∃ (r' : RootInfo) (w' : Work),
      iterations c (ticks.take 6) r w = (Flow.leave, r', w')
        ∧ restOfRun c ticks r w = some (finalFlush c r' w')
        ∧ applyCalls (finalFlush c r' w').log = applyCalls r'.log ++
            (flushCall Effect.callRemoveChildren w'.removes
              ++ flushCall Effect.callAddChildren w'.adds
              ++ flushCall Effect.callUpdateChildren w'.updates)
        ∧ handedRemoves (finalFlush c r' w').log = handedRemoves r.log ++ w.removes
        ∧ handedAdds (finalFlush c r' w').log = handedAdds r.log ++ w.adds
        ∧ handedUpdates (finalFlush c r' w').log = handedUpdates r.log ++ w.updates := by
  obtain ⟨r', w', cs, e₁, e₂, ha, h₁, h₂, h₃⟩ :=
    iterations_idle c 5 ticks r w ht hc hq (by omega) hlen
  have hf := finalFlush_applied c r' w'
  have hh := hf.handed
  have hr := ha.handed
  obtain ⟨fa, fu, fr, -, -, -, -, -, -⟩ := handed_flushCall w'.adds
  obtain ⟨-, -, -, ua, uu, ur, -, -, -⟩ := handed_flushCall w'.updates
  obtain ⟨-, -, -, -, -, -, ra, ru, rr⟩ := handed_flushCall w'.removes
  have hlog : ({ r' with processFileEventRuning := false } : RootInfo).log = r'.log := rfl
  rw [hlog] at hh
  refine ⟨r', w', e₁, ?_, hf.2.2.2.2, ?_, ?_, ?_⟩
  · simp [restOfRun, runLoop, e₂]
  · rw [hh.2.2, hr.2.2, handedRemoves_append, handedRemoves_append, rr, fr, ur, ← h₃]
    simp
  · rw [hh.1, hr.1, handedAdds_append, handedAdds_append, ra, fa, ua, ← h₁]
    simp
  · rw [hh.2.1, hr.2.1, handedUpdates_append, handedUpdates_append, ru, fu, uu, ← h₂]
    simp

/-- `doWatcherEvent` is the rest of a run from the first iteration, entered
with `processFileEventRuning` set and the locals as declared. -/
theorem doWatcherEvent_eq_restOfRun (c : Collaborators) (ticks : List Tick) (r : RootInfo)
    (hp : r.processFileEventRuning = false) :
    doWatcherEvent c ticks r
      = restOfRun c ticks { r with processFileEventRuning := true } Work.init := by
  rw [doWatcherEvent, if_neg (by simp [hp])]
  rfl

/-- The counter `emptyLoopCount` never becomes negative. -/
theorem loopIteration_emptyLoopCount (c : Collaborators) (t : Tick) (r : RootInfo) (w : Work)
    (h : 0 ≤ w.emptyLoopCount) : 0 ≤ (loopIteration c t r w).2.2.emptyLoopCount := by
  have hf : 0 ≤ (if t.elapsedCheck - w.oldtime ≥ 200
      then periodicFlush c t (enqueueAll r t.arrivals) w
      else (enqueueAll r t.arrivals, w)).2.emptyLoopCount := by
    split_ifs
    · exact h
    · exact h
  unfold loopIteration
  dsimp only
  generalize (if t.elapsedCheck - w.oldtime ≥ 200
      then periodicFlush c t (enqueueAll r t.arrivals) w
      else (enqueueAll r t.arrivals, w)) = rw at hf
  split_ifs
  all_goals dsimp only
  all_goals first
    | exact h
    | exact hf
    | exact le_refl _
    | omega
    | (rw [(mergeEvent_counters _ _).2])

/-! ## Cancellation, flush order and the running flag at their failing inputs -/

/-- C13 at its failing inputs: with `cancelWatcherEvent` already set at the
start of an iteration and an add of `a.txt` pending, a periodic flush that is
due calls `addChildren` before the iteration returns; when the loop condition
is false instead, the final flush calls it; and in a whole run cancelled
during its second iteration `a.txt` ends up in the snapshot. -/
theorem cancel_after_flush :
    (loopIteration localFiles (Tick.quiet 200)
        { RootInfo.idle dirD with
          cancelWatcherEvent := true, watcherEvent := [⟨fileB, EventType.kAddFile⟩] }
        { Work.init with adds := [fileA] }).1 = Flow.returned
      ∧ (loopIteration localFiles (Tick.quiet 200)
        { RootInfo.idle dirD with
          cancelWatcherEvent := true, watcherEvent := [⟨fileB, EventType.kAddFile⟩] }
        { Work.init with adds := [fileA] }).2.1.log
          = [Effect.callAddChildren [fileA], Effect.watcherAddFiles [recordOf fileA]]
      ∧ (restOfRun localFiles [Tick.quiet 200]
          { RootInfo.idle dirD with cancelWatcherEvent := true }
          { Work.init with adds := [fileA] }).map (fun r => r.log)
          = some [Effect.callAddChildren [fileA], Effect.watcherAddFiles [recordOf fileA]]
      ∧ (doWatcherEvent localFiles [Tick.quiet 0, { Tick.quiet 200 with cancelA := true }]
          { RootInfo.idle dirD with
            watcherEvent := [⟨fileA, EventType.kAddFile⟩, ⟨fileB, EventType.kAddFile⟩] }).map
          (fun r => (r.cancelWatcherEvent, r.childrenUrlList, r.log))
          = some (true, [fileA],
              [Effect.callAddChildren [fileA], Effect.watcherAddFiles [recordOf fileA]]) := by
  decide

/-- C15 at its failing input: `a.txt` is renamed to `b.txt` and `c.txt` is
updated; the rename is flushed by the periodic flush, which calls
`addChildren` on `[b.txt]` before `removeChildren` on `[a.txt]`. -/
theorem periodic_flush_adds_first :
    (doFileUpdated (dofileMoved localFiles (RootInfo.idle dirD) fileA fileB) fileC).watcherEvent
        = [⟨fileA, EventType.kRmFile⟩, ⟨fileB, EventType.kAddFile⟩,
            ⟨fileC, EventType.kUpdateFile⟩]
    ∧ (doWatcherEvent localFiles [Tick.quiet 0, Tick.quiet 10, Tick.quiet 200, Tick.quiet 200]
        (doFileUpdated (dofileMoved localFiles (RootInfo.idle dirD) fileA fileB) fileC)).map
        (fun r => applyCalls r.log)
      = some [Effect.callAddChildren [fileB], Effect.callRemoveChildren [fileA],
          Effect.callUpdateChildren [fileC]] := by
  decide

/-- C17 at its failing input: a run cancelled at line 361 returns with
`processFileEventRuning` still set, and the next `doThreadWatcherEvent`, after
an update of `b.txt` was enqueued, returns at its first test: the queue is not
drained and no apply function is called. -/
theorem cancel_keeps_running_flag :
    (doWatcherEvent localFiles [{ Tick.quiet 0 with cancelA := true }]
        { RootInfo.idle dirD with watcherEvent := [⟨fileA, EventType.kAddFile⟩] }).map
        (fun r => (r.processFileEventRuning, r.watcherEvent))
      = some (true, [⟨fileA, EventType.kAddFile⟩])
    ∧ ((doWatcherEvent localFiles [{ Tick.quiet 0 with cancelA := true }]
        { RootInfo.idle dirD with watcherEvent := [⟨fileA, EventType.kAddFile⟩] }).bind
        (fun r => doThreadWatcherEvent localFiles [Tick.quiet 0, Tick.quiet 200]
          (doFileUpdated r fileB))).map (fun r => (r.watcherEvent, applyCalls r.log))
      = some ([⟨fileA, EventType.kAddFile⟩, ⟨fileB, EventType.kUpdateFile⟩], []) := by
  decide

/-! ## Net kind of a burst -/

/-- A burst has no last non-update kind exactly when it holds updates only. -/
theorem lastNonUpdate_eq_none (ks : List EventType) :
    lastNonUpdate ks = none ↔ ∀ k ∈ ks, k = EventType.kUpdateFile := by
  unfold lastNonUpdate
  rw [List.getLast?_eq_none_iff, List.filter_eq_nil_iff]
  simp

/-- C16. Net kind of a burst: a non-empty burst of events for one valid,
non-root identity `u`, drained from the queue with no flush in between, leaves
`u` once in `adds` and nowhere else when its last non-update event is an add,
once in `removes` and nowhere else when it is a remove, and once in `updates`
and nowhere else when every event is an update. -/
theorem burst_net_kind (c : Collaborators) (u : QUrl) (ks : List EventType) (ticks : List Tick)
    (r : RootInfo) (hv : c.isValid u = true) (hroot : c.urlEquals u r.url = false)
    (hne : ks ≠ []) (hlen : ticks.length = ks.length) (ht : ∀ t ∈ ticks, t.calm)
    (hc : r.cancelWatcherEvent = false) (hq : r.watcherEvent = burst u ks) :
    (iterations c ticks r Work.init).1 = Flow.next
      ∧ (iterations c ticks r Work.init).2.2 = (burst u ks).foldl mergeEvent Work.init
      ∧ (lastNonUpdate ks = some EventType.kAddFile →
          (iterations c ticks r Work.init).2.2.adds = [u]
            ∧ (iterations c ticks r Work.init).2.2.updates = []
            ∧ (iterations c ticks r Work.init).2.2.removes = [])
      ∧ (lastNonUpdate ks = some EventType.kRmFile →
          (iterations c ticks r Work.init).2.2.adds = []
            ∧ (iterations c ticks r Work.init).2.2.updates = []
            ∧ (iterations c ticks r Work.init).2.2.removes = [u])
      ∧ ((∀ k ∈ ks, k = EventType.kUpdateFile) →
          (iterations c ticks r Work.init).2.2.adds = []
            ∧ (iterations c ticks r Work.init).2.2.updates = [u]
            ∧ (iterations c ticks r Work.init).2.2.removes = []) := by
  have hit := iterations_merge c (burst u ks) ticks r Work.init (by simp [hlen, burst]) ht hc hq
    (fun e he => by
      obtain ⟨k, -, rfl⟩ := List.mem_map.1 he
      exact ⟨hv, Or.inl hroot⟩) rfl rfl
  have hb := foldl_mergeEvent_burst u ks
  rw [hit]
  refine ⟨rfl, rfl, ?_, ?_, ?_⟩
  · intro h
    rw [h] at hb
    rw [hb]
    exact ⟨rfl, rfl, rfl⟩
  · intro h
    rw [h] at hb
    rw [hb]
    exact ⟨rfl, rfl, rfl⟩
  · intro h
    rw [(lastNonUpdate_eq_none ks).2 h] at hb
    simp only [hne, if_false] at hb
    rw [hb]
    exact ⟨rfl, rfl, rfl⟩

/-! ## The running flag -/

/-- Events enqueued by other threads leave `processFileEventRuning` alone. -/
theorem enqueueAll_running (r : RootInfo) (es : List Event) :
    (enqueueAll r es).processFileEventRuning = r.processFileEventRuning
      ∧ (enqueueAll r es).cancelWatcherEvent = r.cancelWatcherEvent := by
  unfold enqueueAll
  induction es generalizing r with
  | nil => exact ⟨rfl, rfl⟩
  | cons e es ih =>
    rw [List.foldl_cons]
    exact ⟨(ih _).1, (ih _).2⟩

/-- Setting `cancelWatcherEvent` leaves `processFileEventRuning` alone. -/
theorem observeCancel_running (r : RootInfo) (flag : Bool) :
    (observeCancel r flag).processFileEventRuning = r.processFileEventRuning := by
  unfold observeCancel
  split_ifs <;> rfl

/-- Taking an event off the queue leaves the two flags alone. -/
theorem dequeueEvent_running (r : RootInfo) :
    (dequeueEvent r).2.processFileEventRuning = r.processFileEventRuning
      ∧ (dequeueEvent r).2.cancelWatcherEvent = r.cancelWatcherEvent := by
  unfold dequeueEvent
  cases r.watcherEvent <;> exact ⟨rfl, rfl⟩

/-- The root-delete branch leaves `processFileEventRuning` alone. -/
theorem clearRoot_running (r : RootInfo) (fileUrl : QUrl) :
    (clearRoot r fileUrl).processFileEventRuning = r.processFileEventRuning := by
  simp only [clearRoot, RootInfo.emit]

/-- One iteration leaves `processFileEventRuning` alone. -/
theorem loopIteration_running (c : Collaborators) (t : Tick) (r : RootInfo) (w : Work) :
    (loopIteration c t r w).2.1.processFileEventRuning = r.processFileEventRuning := by
  have h₁ := (enqueueAll_running r t.arrivals).1
  have h₂ : (if t.elapsedCheck - w.oldtime ≥ 200
      then periodicFlush c t (enqueueAll r t.arrivals) w
      else (enqueueAll r t.arrivals, w)).1.processFileEventRuning
        = r.processFileEventRuning := by
    split_ifs
    · rw [(periodicFlush_applied c t _ w).2.2.1, h₁]
    · exact h₁
  unfold loopIteration
  dsimp only
  generalize (if t.elapsedCheck - w.oldtime ≥ 200
      then periodicFlush c t (enqueueAll r t.arrivals) w
      else (enqueueAll r t.arrivals, w)) = rw at h₂
  have h₃ : (observeCancel rw.1 t.cancelA).processFileEventRuning = r.processFileEventRuning := by
    rw [observeCancel_running, h₂]
  have h₄ : (enqueueAll (observeCancel rw.1 t.cancelA) t.lateArrivals).processFileEventRuning
      = r.processFileEventRuning := by
    rw [(enqueueAll_running _ _).1, h₃]
  have h₅ : (observeCancel (dequeueEvent (enqueueAll (observeCancel rw.1 t.cancelA)
      t.lateArrivals)).2 t.cancelB).processFileEventRuning = r.processFileEventRuning := by
    rw [observeCancel_running, (dequeueEvent_running _).1, h₄]
  split_ifs
  all_goals dsimp only
  all_goals first
    | with_reducible exact h₁
    | with_reducible exact h₃
    | with_reducible exact h₄
    | with_reducible exact h₅
    | (rw [observeCancel_running]; with_reducible exact h₅)
    | (rw [clearRoot_running]; with_reducible exact h₅)

/-- An iteration ends in a `return` only with `cancelWatcherEvent` set. -/
theorem loopIteration_returned (c : Collaborators) (t : Tick) (r : RootInfo) (w : Work)
    (res : Flow × RootInfo × Work) (h : loopIteration c t r w = res)
    (hf : res.1 = Flow.returned) : res.2.1.cancelWatcherEvent = true := by
  unfold loopIteration at h
  dsimp only at h
  generalize (if t.elapsedCheck - w.oldtime ≥ 200
      then periodicFlush c t (enqueueAll r t.arrivals) w
      else (enqueueAll r t.arrivals, w)) = rw at h
  split_ifs at h
  all_goals subst h
  all_goals dsimp only at hf ⊢
  all_goals first
    | with_reducible assumption
    | exact Flow.noConfusion hf

/-! ## Witnesses and what does hold of cancellation and of the running flag -/

/-- The witness of C14: an add of `a.txt` is pending when the queue runs dry;
the run ends and `a.txt` has been handed to `addChildren` once. -/
theorem doWatcherEvent_bounded_retry_witness :
    (∀ t ∈ List.replicate 6 (Tick.quiet 0), t.undisturbed)
      ∧ (restOfRun localFiles (List.replicate 6 (Tick.quiet 0)) (RootInfo.idle dirD)
          { Work.init with adds := [fileA] }).map (fun r => handedAdds r.log) = some [fileA] := by
  have ht : ∀ t ∈ List.replicate 6 (Tick.quiet 0), t.undisturbed := by
    intro t h
    rw [List.eq_of_mem_replicate h]
    simp [Tick.undisturbed, Tick.quiet]
  obtain ⟨r', w', -, h₂, -, -, h₅, -⟩ :=
    doWatcherEvent_bounded_retry localFiles (List.replicate 6 (Tick.quiet 0)) (RootInfo.idle dirD)
      { Work.init with adds := [fileA] } ht rfl rfl (by decide) (by simp)
  refine ⟨ht, ?_⟩
  rw [h₂, Option.map_some', h₅]
  rfl

/-- The witness of C16: update, add, update of `a.txt` nets an add. -/
theorem burst_net_kind_witness :
    localFiles.isValid fileA = true ∧ localFiles.urlEquals fileA (RootInfo.idle dirD).url = false
      ∧ lastNonUpdate [EventType.kUpdateFile, EventType.kAddFile, EventType.kUpdateFile]
          = some EventType.kAddFile
      ∧ (iterations localFiles [Tick.quiet 0, Tick.quiet 1, Tick.quiet 2]
          { RootInfo.idle dirD with
            watcherEvent :=
              burst fileA [EventType.kUpdateFile, EventType.kAddFile, EventType.kUpdateFile] }
          Work.init).2.2.adds = [fileA] :=
  ⟨by decide, by decide, by decide,
    ((burst_net_kind localFiles fileA
      [EventType.kUpdateFile, EventType.kAddFile, EventType.kUpdateFile]
      [Tick.quiet 0, Tick.quiet 1, Tick.quiet 2]
      { RootInfo.idle dirD with
        watcherEvent :=
          burst fileA [EventType.kUpdateFile, EventType.kAddFile, EventType.kUpdateFile] }
      (by decide) (by decide) (by decide) rfl (by simp [Tick.calm, Tick.quiet]) rfl
      rfl).2.2.1 (by decide)).1⟩

/-- Any number of iterations leaves `processFileEventRuning` alone, and they
end in a `return` only with `cancelWatcherEvent` set. -/
theorem iterations_running (c : Collaborators) (ticks : List Tick) (r : RootInfo) (w : Work) :
    (iterations c ticks r w).2.1.processFileEventRuning = r.processFileEventRuning
      ∧ ((iterations c ticks r w).1 = Flow.returned →
          (iterations c ticks r w).2.1.cancelWatcherEvent = true) := by
  induction ticks generalizing r w with
  | nil => exact ⟨rfl, fun h => Flow.noConfusion h⟩
  | cons t ts ih =>
    have h₁ := loopIteration_running c t r w
    have h₂ := loopIteration_returned c t r w _ rfl
    rw [iterations]
    generalize loopIteration c t r w = res at h₁ h₂
    obtain ⟨f, r', w'⟩ := res
    cases f
    · exact ⟨(ih r' w').1.trans h₁, (ih r' w').2⟩
    · exact ⟨h₁, fun h => Flow.noConfusion h⟩
    · exact ⟨h₁, h₂⟩

/-- A run entered with `processFileEventRuning` clear returns with the flag
clear, unless it was cancelled: then the flag is still set. -/
theorem doWatcherEvent_running (c : Collaborators) (ticks : List Tick) (r r' : RootInfo)
    (hp : r.processFileEventRuning = false) (h : doWatcherEvent c ticks r = some r') :
    r'.processFileEventRuning = false
      ∨ (r'.processFileEventRuning = true ∧ r'.cancelWatcherEvent = true) := by
  rw [doWatcherEvent, if_neg (by simp [hp])] at h
  have hk := iterations_running c ticks { r with processFileEventRuning := true } Work.init
  simp only [runLoop] at h
  generalize iterations c ticks { r with processFileEventRuning := true } Work.init = res
    at h hk
  obtain ⟨f, r₁, w₁⟩ := res
  cases f
  · simp at h
  · simp only [Option.some.injEq] at h
    subst h
    exact Or.inl (finalFlush_applied c r₁ w₁).2.2.1
  · simp only [Option.some.injEq] at h
    subst h
    exact Or.inr ⟨hk.1, hk.2 rfl⟩

/-- With `cancelWatcherEvent` set at the start of an iteration whose loop
condition holds and in which no periodic flush is due, the iteration returns
at line 361 and the locals are dropped with no call made. -/
theorem loopIteration_cancelled (c : Collaborators) (t : Tick) (r : RootInfo) (w : Work)
    (hc : r.cancelWatcherEvent = true)
    (hcond : checkFileEventQueue (enqueueAll r t.arrivals) = true ∨ t.elapsedCond < 200)
    (hfl : t.elapsedCheck - w.oldtime < 200) :
    loopIteration c t r w = (Flow.returned, enqueueAll r t.arrivals, w) := by
  have hn : ¬ (t.elapsedCheck - w.oldtime ≥ 200) := not_le.2 hfl
  have hc' : (enqueueAll r t.arrivals).cancelWatcherEvent = true := by
    rw [(enqueueAll_running r t.arrivals).2, hc]
  have ho : observeCancel (enqueueAll r t.arrivals) t.cancelA = enqueueAll r t.arrivals := by
    unfold observeCancel
    split_ifs
    · generalize enqueueAll r t.arrivals = x at hc'
      cases x
      simp_all
    · rfl
  unfold loopIteration
  rcases hcond with h | h <;> simp [h, hn, ho, hc']

/-- In a run the counter `emptyLoopCount` is never negative. -/
theorem iterations_emptyLoopCount (c : Collaborators) (ticks : List Tick) (r : RootInfo)
    (w : Work) (h : 0 ≤ w.emptyLoopCount) : 0 ≤ (iterations c ticks r w).2.2.emptyLoopCount := by
  induction ticks generalizing r w with
  | nil => exact h
  | cons t ts ih =>
    have h₁ := loopIteration_emptyLoopCount c t r w h
    rw [iterations]
    generalize loopIteration c t r w = res at h₁
    obtain ⟨f, r', w'⟩ := res
    cases f
    · exact ih _ _ h₁
    · exact h₁
    · exact h₁

/-! ## Rename: the deltas -/

/-- `fileInfo` reads nothing of the state but the watcher. -/
theorem fileInfo_congr (c : Collaborators) (r r' : RootInfo) (url : QUrl)
    (h : r'.watcher = r.watcher) : fileInfo c r' url = fileInfo c r url := by
  unfold fileInfo
  rw [h]

/-- The deltas of two logs in a row. -/
theorem deltas_append (l₁ l₂ : List Effect) : deltas (l₁ ++ l₂) = deltas l₁ ++ deltas l₂ := by
  simp [deltas, List.filter_append]

/-- `addChild` returns the record `sortFileInfo` builds and leaves the watcher
and the hidden-file URL alone. -/
theorem addChild_record (r : RootInfo) (info : FileInfo) :
    (addChild r (some info)).1 = sortFileInfo (some info)
      ∧ (addChild r (some info)).2.watcher = r.watcher
      ∧ (addChild r (some info)).2.hiddenFileUrl = r.hiddenFileUrl := by
  simp only [addChild, sortFileInfo]
  split_ifs <;> exact ⟨rfl, rfl, rfl⟩

/-- The loop of `addChildren(const QList<QUrl> &)` on one URL that `fileInfo`
resolves. -/
theorem addChildrenLoop_one (c : Collaborators) (r : RootInfo) (url : QUrl) (info : FileInfo)
    (hi : fileInfo c r url = some info) :
    addChildrenLoop c [url] r [] false =
      ((addChild r (some info)).2, [sortFileInfo (some info)],
        if c.urlEquals url r.hiddenFileUrl then true else false) := by
  rw [addChildrenLoop]
  simp only [QUrl.setPathPath, hi]
  have h := (addChild_record r info).1
  generalize addChild r (some info) = res at h ⊢
  obtain ⟨s, r'⟩ := res
  simp only at h
  subst h
  simp only [sortFileInfo, addChildrenLoop, List.nil_append]

/-- `addChildren` on one URL emits its add delta when `fileInfo` resolves the
URL and no delta otherwise. -/
theorem addChildren_single (c : Collaborators) (r : RootInfo) (url : QUrl) :
    deltas (addChildren c r [url]).log = deltas r.log ++ addDelta c r url := by
  have hf : fileInfo c (r.emit (Effect.callAddChildren [url])) url = fileInfo c r url :=
    fileInfo_congr c r _ url rfl
  unfold addDelta
  cases h : fileInfo c r url with
  | none =>
    rw [h] at hf
    simp only [addChildren, addChildrenLoop, QUrl.setPathPath, hf]
    simp [RootInfo.emit, deltas, List.filter_append, Effect.isDelta]
  | some info =>
    rw [h] at hf
    have hl := addChildrenLoop_one c (r.emit (Effect.callAddChildren [url])) url info hf
    have hlog := (addChild_log (r.emit (Effect.callAddChildren [url])) (some info)).1
    unfold addChildren
    simp only [hl]
    generalize (addChild (r.emit (Effect.callAddChildren [url])) (some info)).2 = r₁ at hlog ⊢
    have hlog' : r₁.log = r.log ++ [Effect.callAddChildren [url]] := hlog
    clear hl hlog hf h
    have hlen : [sortFileInfo (some info)].length > 0 := by simp
    simp only [hlen, if_true]
    split_ifs <;> simp [RootInfo.emit, hlog', deltas, List.filter_append, Effect.isDelta]

/-- The loop of `removeChildren` on one URL that `fileInfo` resolves: one
record is collected, and the state changes in its snapshot and its log only. -/
theorem removeChildrenLoop_one (c : Collaborators) (r : RootInfo) (url : QUrl) (info : FileInfo)
    (hi : fileInfo c r url = some info) :
    ∃ r₁ : RootInfo, removeChildrenLoop c [url] r [] [] = (r₁, [removedRecord r info], [info.url])
      ∧ r₁.log = r.log ++ [Effect.removeCacheWatcherByParent url, Effect.requestCloseTab url]
      ∧ r₁.watcher = r.watcher := by
  have hf : fileInfo c ((r.emit (Effect.removeCacheWatcherByParent url)).emit
      (Effect.requestCloseTab url)) url = some info :=
    (fileInfo_congr c r _ url rfl).trans hi
  have hlog : ((r.emit (Effect.removeCacheWatcherByParent url)).emit
      (Effect.requestCloseTab url)).log
        = r.log ++ [Effect.removeCacheWatcherByParent url, Effect.requestCloseTab url] := by
    simp [RootInfo.emit]
  have hcul : ((r.emit (Effect.removeCacheWatcherByParent url)).emit
      (Effect.requestCloseTab url)).childrenUrlList = r.childrenUrlList := rfl
  have hsdl : ((r.emit (Effect.removeCacheWatcherByParent url)).emit
      (Effect.requestCloseTab url)).sourceDataList = r.sourceDataList := rfl
  have hw : ((r.emit (Effect.removeCacheWatcherByParent url)).emit
      (Effect.requestCloseTab url)).watcher = r.watcher := rfl
  rw [removeChildrenLoop]
  simp only [QUrl.setPathPath, hf]
  generalize (r.emit (Effect.removeCacheWatcherByParent url)).emit (Effect.requestCloseTab url)
    = r₀ at hlog hcul hsdl hw ⊢
  rw [hcul, hsdl]
  unfold removedRecord
  split_ifs
  · simp only [removeChildrenLoop, List.nil_append]
    exact ⟨_, rfl, hlog, hw⟩
  · simp only [removeChildrenLoop, List.nil_append]
    exact ⟨_, rfl, hlog, hw⟩

/-- `removeChildren` on one URL emits its remove delta when `fileInfo` resolves
the URL and no delta otherwise; it leaves the watcher alone. -/
theorem removeChildren_single (c : Collaborators) (r : RootInfo) (url : QUrl) :
    deltas (removeChildren c r [url]).log = deltas r.log ++ removeDelta c r url
      ∧ (removeChildren c r [url]).watcher = r.watcher := by
  have hf : fileInfo c ((r.emit (Effect.callRemoveChildren [url])).emit
      (Effect.removeCacheFileInfo [url])) url = fileInfo c r url := fileInfo_congr c r _ url rfl
  unfold removeDelta
  cases h : fileInfo c r url with
  | none =>
    have hf' : fileInfo c ((((r.emit (Effect.callRemoveChildren [url])).emit
      (Effect.removeCacheFileInfo [url])).emit (Effect.removeCacheWatcherByParent url)).emit
      (Effect.requestCloseTab url)) url = none :=
      (fileInfo_congr c r _ url rfl).trans h
    simp only [removeChildren, removeChildrenLoop, QUrl.setPathPath, hf']
    simp [RootInfo.emit, deltas, List.filter_append, Effect.isDelta]
  | some info =>
    rw [h] at hf
    obtain ⟨r₁, hl, hlog, hw⟩ := removeChildrenLoop_one c _ url info hf
    have hrec : removedRecord ((r.emit (Effect.callRemoveChildren [url])).emit
        (Effect.removeCacheFileInfo [url])) info = removedRecord r info := rfl
    rw [hrec] at hl
    have hlog' : r₁.log = r.log ++ [Effect.callRemoveChildren [url],
        Effect.removeCacheFileInfo [url], Effect.removeCacheWatcherByParent url,
        Effect.requestCloseTab url] := by
      rw [hlog]; simp [RootInfo.emit]
    have hw' : r₁.watcher = r.watcher := hw
    unfold removeChildren
    simp only [hl]
    clear hl hlog hw hrec hf
    have hlen : [removedRecord r info].length > 0 := by simp
    simp only [hlen, if_true]
    constructor
    · split_ifs <;> simp [RootInfo.emit, hlog', deltas, List.filter_append, Effect.isDelta]
    · split_ifs <;> simp [RootInfo.emit, hw']
/-- What `dofileMoved` leaves alone besides the queue: the watcher, the
snapshot, and the deltas and apply calls recorded so far. -/
theorem dofileMoved_silent (c : Collaborators) (r : RootInfo) (fromUrl toUrl : QUrl) :
    (dofileMoved c r fromUrl toUrl).watcher = r.watcher
      ∧ (dofileMoved c r fromUrl toUrl).childrenUrlList = r.childrenUrlList
      ∧ (dofileMoved c r fromUrl toUrl).sourceDataList = r.sourceDataList
      ∧ deltas (dofileMoved c r fromUrl toUrl).log = deltas r.log
      ∧ applyCalls (dofileMoved c r fromUrl toUrl).log = applyCalls r.log := by
  simp only [dofileMoved, doFileDeleted, dofileCreated, enqueueEvent, RootInfo.emit]
  split_ifs <;>
    simp [deltas, applyCalls, List.filter_append, Effect.isDelta, Effect.isApplyCall]

/-- The remove delta depends on the watcher and the snapshot only. -/
theorem removeDelta_congr (c : Collaborators) (r r' : RootInfo) (url : QUrl)
    (hw : r'.watcher = r.watcher) (hc : r'.childrenUrlList = r.childrenUrlList)
    (hs : r'.sourceDataList = r.sourceDataList) : removeDelta c r' url = removeDelta c r url := by
  unfold removeDelta removedRecord
  rw [fileInfo_congr c r r' url hw, hc, hs]

/-- The add delta depends on the watcher only. -/
theorem addDelta_congr (c : Collaborators) (r r' : RootInfo) (url : QUrl)
    (hw : r'.watcher = r.watcher) : addDelta c r' url = addDelta c r url := by
  unfold addDelta
  rw [fileInfo_congr c r r' url hw]

/-- What `removeChildren` on `[a]` followed by `addChildren` on `[b]` adds to
the log: the two calls, the remove delta of `a` and the add delta of `b`. -/
theorem rename_flush (c : Collaborators) (r : RootInfo) (a b : QUrl) :
    applyCalls (addChildren c (removeChildren c r [a]) [b]).log =
        applyCalls r.log ++ [Effect.callRemoveChildren [a], Effect.callAddChildren [b]]
      ∧ deltas (addChildren c (removeChildren c r [a]) [b]).log =
        deltas r.log ++ removeDelta c r a ++ addDelta c r b := by
  constructor
  · exact ((removeChildren_applied c r [a]).append
      (addChildren_applied c (removeChildren c r [a]) [b])).2.2.2.2
  · obtain ⟨hd, hw⟩ := removeChildren_single c r a
    rw [addChildren_single, hd, addDelta_congr c r _ b hw]

/-- The counterexample of C9: `a.txt` renamed to `b.txt`, distinct, valid and
not the root, when `fileInfo` resolves neither: `removeChildren` and
`addChildren` are called and skip the identity, and no delta is emitted. -/
theorem rename_without_delta :
    fileA ≠ fileB ∧ vanishedFiles.isValid fileA = true ∧ vanishedFiles.isValid fileB = true
      ∧ vanishedFiles.urlEquals fileA (RootInfo.idle dirD).url = false
      ∧ vanishedFiles.urlEquals fileB (RootInfo.idle dirD).url = false
      ∧ (doWatcherEvent vanishedFiles [Tick.quiet 0, Tick.quiet 10, Tick.quiet 200]
          (dofileMoved vanishedFiles (RootInfo.idle dirD) fileA fileB)).map (fun r => r.log) =
        some [Effect.renameFileProcessStarted, Effect.invokeDoThreadWatcherEvent,
          Effect.invokeDoThreadWatcherEvent,
          Effect.callRemoveChildren [fileA], Effect.removeCacheFileInfo [fileA],
          Effect.removeCacheWatcherByParent fileA, Effect.requestCloseTab fileA,
          Effect.callAddChildren [fileB]]
      ∧ (doWatcherEvent vanishedFiles [Tick.quiet 0, Tick.quiet 10, Tick.quiet 200]
          (dofileMoved vanishedFiles (RootInfo.idle dirD) fileA fileB)).map
            (fun r => deltas r.log) = some [] := by
  decide

/-- C9, amended. Rename: for distinct valid identities `a` and `b`, neither the
root, `dofileMoved(a, b)` appends `Remove(a)` then `Add(b)` to the queue; merged
from empty working lists they give `removes = [a]`, `adds = [b]`,
`updates = []`; and a run that drains them in one window is `removeChildren`
on `[a]` followed by `addChildren` on `[b]`: the only calls of the apply
functions are these two, none of `updateChildren`, and the deltas emitted are
the remove delta of `a`, present exactly when `fileInfo` resolves `a`, followed
by the add delta of `b`, present exactly when `fileInfo` resolves `b`, and no
update delta. -/
theorem dofileMoved_rename (c : Collaborators) (r : RootInfo) (a b : QUrl) (hab : a ≠ b)
    (hva : c.isValid a = true) (hvb : c.isValid b = true)
    (hra : c.urlEquals a r.url = false) (hrb : c.urlEquals b r.url = false) :
    (dofileMoved c r a b).watcherEvent =
        r.watcherEvent ++ [⟨a, EventType.kRmFile⟩, ⟨b, EventType.kAddFile⟩]
      ∧ ([⟨a, EventType.kRmFile⟩, ⟨b, EventType.kAddFile⟩] : List Event).foldl mergeEvent Work.init
          = { Work.init with adds := [b], removes := [a] }
      ∧ ∀ (t₁ t₂ tEnd : Tick), t₁.calm → t₂.calm → tEnd.arrivals = [] → 200 ≤ tEnd.elapsedCond →
          r.watcherEvent = [] → r.cancelWatcherEvent = false →
          r.processFileEventRuning = false →
          doWatcherEvent c [t₁, t₂, tEnd] (dofileMoved c r a b) =
              some (addChildren c
                (removeChildren c
                  { dofileMoved c r a b with watcherEvent := [], processFileEventRuning := false }
                  [a])
                [b])
            ∧ (doWatcherEvent c [t₁, t₂, tEnd] (dofileMoved c r a b)).map
                (fun r' => applyCalls r'.log) =
              some (applyCalls r.log ++ [Effect.callRemoveChildren [a], Effect.callAddChildren [b]])
            ∧ (doWatcherEvent c [t₁, t₂, tEnd] (dofileMoved c r a b)).map
                (fun r' => deltas r'.log) =
              some (deltas r.log ++ removeDelta c r a ++ addDelta c r b) := by
  obtain ⟨hq, hm, hrun⟩ := dofileMoved_run c r a b hab hva hvb hra hrb
  refine ⟨hq, hm, ?_⟩
  intro t₁ t₂ tEnd h₁ h₂ ha he hq₀ hc hp
  have hr := hrun t₁ t₂ tEnd h₁ h₂ ha he hq₀ hc hp
  obtain ⟨mw, mc, ms, md, ma⟩ := dofileMoved_silent c r a b
  refine ⟨hr, ?_, ?_⟩
  · rw [hr]
    generalize dofileMoved c r a b = m at mw mc ms md ma
    have hl := (rename_flush c { m with watcherEvent := [], processFileEventRuning := false }
      a b).1
    simp only [Option.map_some']
    rw [hl]
    exact congrArg (fun l => some (l ++ _)) ma
  · rw [hr]
    generalize dofileMoved c r a b = m at mw mc ms md ma
    have hl := (rename_flush c { m with watcherEvent := [], processFileEventRuning := false }
      a b).2
    have hrd := removeDelta_congr c r
      { m with watcherEvent := [], processFileEventRuning := false } a mw mc ms
    have had := addDelta_congr c r
      { m with watcherEvent := [], processFileEventRuning := false } b mw
    simp only [Option.map_some']
    rw [hl, hrd, had]
    exact congrArg (fun l => some (l ++ _ ++ _)) md

/-- The witness of C9: `a.txt` renamed to `b.txt` in the directory `/d`, both
resolvable: one remove delta for `a.txt`, then one add delta for `b.txt`. -/
theorem dofileMoved_rename_witness :
    fileA ≠ fileB ∧ localFiles.isValid fileA = true ∧ localFiles.isValid fileB = true
      ∧ localFiles.urlEquals fileA (RootInfo.idle dirD).url = false
      ∧ localFiles.urlEquals fileB (RootInfo.idle dirD).url = false
      ∧ (Tick.quiet 0).calm ∧ (Tick.quiet 10).calm
      ∧ removeDelta localFiles (RootInfo.idle dirD) fileA
          = [Effect.watcherRemoveFiles [recordOf fileA]]
      ∧ addDelta localFiles (RootInfo.idle dirD) fileB
          = [Effect.watcherAddFiles [recordOf fileB]]
      ∧ (doWatcherEvent localFiles [Tick.quiet 0, Tick.quiet 10, Tick.quiet 200]
          (dofileMoved localFiles (RootInfo.idle dirD) fileA fileB)).map
            (fun r' => applyCalls r'.log) =
          some (applyCalls (RootInfo.idle dirD).log
            ++ [Effect.callRemoveChildren [fileA], Effect.callAddChildren [fileB]])
      ∧ (doWatcherEvent localFiles [Tick.quiet 0, Tick.quiet 10, Tick.quiet 200]
          (dofileMoved localFiles (RootInfo.idle dirD) fileA fileB)).map
            (fun r' => deltas r'.log) =
          some (deltas (RootInfo.idle dirD).log
            ++ removeDelta localFiles (RootInfo.idle dirD) fileA
            ++ addDelta localFiles (RootInfo.idle dirD) fileB) :=
  ⟨by decide, by decide, by decide, by decide, by decide,
    by simp [Tick.calm, Tick.quiet], by simp [Tick.calm, Tick.quiet], by decide, by decide,
    ((dofileMoved_rename localFiles (RootInfo.idle dirD) fileA fileB (by decide) (by decide)
      (by decide) (by decide) (by decide)).2.2 (Tick.quiet 0) (Tick.quiet 10) (Tick.quiet 200)
      (by simp [Tick.calm, Tick.quiet]) (by simp [Tick.calm, Tick.quiet]) rfl (by decide)
      rfl rfl rfl).2⟩

end dfmplugin_workspace
